import Mathlib

/-!
Verification development for the selection-set-to-type synthesis core of a
GraphQL code generator.  Two implementations are embedded:

* `selection-set-to-object.ts` (`SelectionSetToObject`): a per-node selection
  collector that accumulates primitive fields, aliased primitive fields, link
  fields, fragment spreads and inline-fragment branches, and composes them
  into one structural type string.
* `inner-models-builer.ts` (`buildInnerModelsArray`): a flat named-model
  builder producing an ordered collection of `Model` declarations.

JavaScript runtime failures (dereferencing `undefined`) are modelled as
`Except` errors of kind `JsError.typeError`, mirroring the `TypeError` a run
would throw.  Utility functions that live in modules outside the provided
sources (`utils.ts`, the naming policy, the visitor subclasses) are modelled
from the specification and marked as such in their doc comments.
-/

namespace GqlGen

/-! ## Schema data model (mirrors the graphql-js type surface used by the source) -/

/-- Kind of a named schema type (`Scalar`, `Enum`, `Object`, `Interface`, `Union`). -/
inductive TypeKind where
  | scalar
  | enum
  | object
  | interface
  | union
deriving DecidableEq, Repr

/-- A (possibly wrapped) schema type reference: a named base type wrapped by
non-null and list modifiers, as in graphql-js `GraphQLType`. -/
inductive GType where
  | named (name : String)
  | nonNull (ofType : GType)
  | list (ofType : GType)
deriving DecidableEq, Repr

/-- A schema field definition; the field name is the key under which it is
stored in its owner's field map, so only the declared type is kept here. -/
structure FieldDef where
  type : GType
deriving DecidableEq, Repr

/-- A named schema type: name, kind, and (for objects/interfaces) the map from
field name to `FieldDef`, kept as an ordered association list. -/
structure NamedType where
  name : String
  kind : TypeKind
  fields : List (String × FieldDef) := []
deriving DecidableEq, Repr

/-- A schema: its named types plus the names of the query/mutation/subscription
root operation types. -/
structure Schema where
  types : List NamedType
  queryTypeName : Option String := none
  mutationTypeName : Option String := none
  subscriptionTypeName : Option String := none
deriving DecidableEq, Repr

/-- The `schema.getType(name)` lookup of graphql-js: a named type by name. -/
def Schema.getType (s : Schema) (n : String) : Option NamedType :=
  s.types.find? (fun t => t.name == n)

/-- Modelled from the spec (the `getBaseType` helper lives in `utils.ts`,
which is not among the provided sources): strip all list/non-null wrappers
and return the underlying named type's name (`§4.1`: "strips list/required
wrappers to expose the modifier structure separately"). -/
def baseNameOf : GType → String
  | .named n => n
  | .nonNull t => baseNameOf t
  | .list t => baseNameOf t

/-- The `type.getFields()[name]` lookup of graphql-js on an object/interface type. -/
def lookupField (t : NamedType) (n : String) : Option FieldDef :=
  (t.fields.find? (fun f => f.1 == n)).map (fun f => f.2)

/-- Function `isMetadataFieldName` from `selection-set-to-object.ts`: the two root
meta-fields `__schema` and `__type`. -/
def isMetadataFieldName (n : String) : Bool :=
  n == "__schema" || n == "__type"

/-- Map `metadataFieldMap` from `selection-set-to-object.ts`: the meta-field
definitions (`__schema: __Schema!`, `__type: __Type`). -/
def metadataFieldMap : String → Option FieldDef
  | "__schema" => some ⟨.nonNull (.named "__Schema")⟩
  | "__type" => some ⟨.named "__Type"⟩
  | _ => none

/-- Function `isRootType` from `selection-set-to-object.ts`: whether a type is the
schema's query, mutation or subscription root type. -/
def isRootTypeB (t : NamedType) (s : Schema) : Bool :=
  s.queryTypeName == some t.name || s.mutationTypeName == some t.name
    || s.subscriptionTypeName == some t.name

/-! ## Selection AST

`SelectionNode` is one of `Field` (name, optional alias, optional nested
selection set), `FragmentSpread` (name), `InlineFragment` (type condition and
mandatory nested selection set).  A mutual inductive family is used so that
the recursive traversals below are structural and compute definitionally. -/

mutual
/-- One selection inside a selection set (graphql-js `SelectionNode`).
The field binder is called `aliasValue` because `alias` is a Lean keyword. -/
inductive SelNode where
  | field (name : String) (aliasValue : Option String) (selectionSet : SelOpt)
  | fragmentSpread (name : String)
  | inlineFragment (typeCondition : String) (selectionSet : SelList)

/-- An optional selection set (a graphql-js `SelectionSetNode | undefined`). -/
inductive SelOpt where
  | none
  | some (l : SelList)

/-- The ordered list of selections of a selection set. -/
inductive SelList where
  | nil
  | cons (head : SelNode) (tail : SelList)
end

/-- Membership of a selection node in a selection list. -/
def SelList.Mem (x : SelNode) : SelList → Prop
  | .nil => False
  | .cons h t => x = h ∨ SelList.Mem x t

/-! ## Errors

The collector has no `try`/`catch`: any thrown `TypeError` (a dereference of
`undefined`) aborts the whole run.  Errors are modelled as `Except` values. -/

/-- A JavaScript runtime `TypeError` thrown by dereferencing `undefined`. -/
inductive JsError where
  | typeError (message : String)
deriving DecidableEq, Repr

/-- The `TypeError` thrown by `schemaField.type` when the field lookup
returned `undefined` (`_collectField`, line 91): the `UnknownFieldError`
of the specification. -/
def fieldTypeDerefError : JsError :=
  .typeError "Cannot read property type of undefined"

/-- The `TypeError` thrown by `this._parentSchemaType.name` in the `string`
getter (line 154) when the parent type is `undefined` — the observable
failure after an inline fragment's type condition resolved to no type
(the `UnknownTypeError` of the specification). -/
def parentNameDerefError : JsError :=
  .typeError "Cannot read property name of undefined"

/-- The `TypeError` thrown by `appendTo.<member>` in `buildInnerModelsArray`
when `appendTo` is still `undefined`. -/
def appendToDerefError : JsError :=
  .typeError "Cannot read property of undefined"

/-! ## `SelectionSetToObject` state and composition helpers -/

/-- A `PrimitiveAliasedFields` entry: alias and original field name. -/
structure AliasedField where
  aliasValue : String
  fieldName : String
deriving DecidableEq, Repr

/-- A `LinkField` entry (alias, name, type, selectionSet); `alias` is
`null` (here `Option.none`) when the field node carries no alias. -/
structure LinkField where
  aliasValue : Option String
  name : String
  type : String
  selectionSet : String
deriving DecidableEq, Repr

/-- The mutable accumulator buckets of one `SelectionSetToObject` instance
(lines 48–53): primitive fields, aliased primitive fields, link fields,
fragment spreads, inline-fragment branches keyed by type condition (a plain
JS object, hence an insertion-ordered association list), and the
`_queriedForTypename` flag. -/
structure Buckets where
  primitiveFields : List String := []
  primitiveAliasedFields : List AliasedField := []
  linksFields : List LinkField := []
  fragmentSpreads : List String := []
  inlineFragments : List (String × List String) := []
  queriedForTypename : Bool := false
deriving DecidableEq, Repr

/-- The bucket state of a freshly constructed instance. -/
def emptyBuckets : Buckets := {}

/-- The accumulation of `_collectInlineFragment` into `this._inlineFragments`:
append to the entry for the key when present, otherwise create a new entry at
the end (JS object string keys preserve insertion order). -/
def pushInline (m : List (String × List String)) (k v : String) :
    List (String × List String) :=
  if m.any (fun kv => kv.1 == k) then
    m.map (fun kv => if kv.1 == k then (kv.1, kv.2 ++ [v]) else kv)
  else m ++ [(k, [v])]

/-- Replay of a sequence of inline-fragment pushes (key/body pairs) against an
accumulator: the inline-fragment bucket evolves only through `pushInline`, and
the pushed pairs are a pure function of the configuration and the selection
list, independent of the incoming bucket state. -/
def applyPushes (m : List (String × List String)) (ps : List (String × String)) :
    List (String × List String) :=
  ps.foldl (fun acc kv => pushInline acc kv.1 kv.2) m

/-- The buckets reached from `b` by appending the collection deltas of one
selection list: each list bucket gains a suffix, the inline-fragment bucket
replays the push sequence, and the typename flag is or-ed.  `collectOne` and
`collectSelections` produce exactly this shape, with deltas independent of
`b`. -/
def bucketsWithDeltas (b : Buckets) (dp : List String) (da : List AliasedField)
    (dl : List LinkField) (ds : List String) (ps : List (String × String))
    (dq : Bool) : Buckets :=
  { primitiveFields := b.primitiveFields ++ dp
    primitiveAliasedFields := b.primitiveAliasedFields ++ da
    linksFields := b.linksFields ++ dl
    fragmentSpreads := b.fragmentSpreads ++ ds
    inlineFragments := applyPushes b.inlineFragments ps
    queriedForTypename := b.queriedForTypename || dq }

/-- The length contributed by an optional composed part (`0` when absent). -/
def strOptLen (o : Option String) : Nat :=
  (o.map String.length).getD 0

/-- Pairing of one composed part across two reads: absent in both, or present
in both with the first no longer than the second and neither empty. -/
def SlotLe (o₁ o₂ : Option String) : Prop :=
  (o₁ = Option.none ∧ o₂ = Option.none)
    ∨ (∃ s₁ s₂, o₁ = Option.some s₁ ∧ o₂ = Option.some s₂
        ∧ s₁.length ≤ s₂.length ∧ s₁ ≠ "" ∧ s₂ ≠ "")

/-- The part-list processing at the tail of the `string` getter: drop the
absent parts, then drop the empty texts (`filter(Boolean)`, line 158). -/
def procSlots (l : List (Option String)) : List String :=
  (l.filterMap id).filter (fun s => s != "")

/-- The length of the inline-fragment bucket as rendered inside
`buildInlineFragments` (`0` for an empty bucket). -/
def renderLen (m : List (String × List String)) : Nat :=
  (String.intercalate " | " (m.map (fun kv => String.intercalate " & " kv.2))).length

/-- The configuration shared by an instance and every instance it creates via
`createNext`: the scalars map (keys with truthy values), the schema, the
naming policy, and the `addTypename` flag.  `convertName` and
`wrapTypeWithModifiers` are modelled from the spec — the naming policy and the
dialect-specific wrapper renderer are injected collaborators whose
implementations (`base-visitor.ts` and the per-dialect visitor subclasses)
are not among the provided sources; they appear here as opaque injected
functions, exactly as `§6` describes them ("a configurable naming policy",
"a target-syntax printer … including wrapper-modifier rendering"). -/
structure Config where
  scalars : List String
  schema : Schema
  convertName : String → Option String → String
  addTypename : Bool
  wrapTypeWithModifiers : String → GType → String

/-- The leaf test of `_collectField` (line 95):
`this._scalars[typeName] || isEnumType(baseType) || isScalarType(baseType)`. -/
def isLeafBase (cfg : Config) (typeName : String) : Bool :=
  cfg.scalars.contains typeName ||
    (match cfg.schema.getType typeName with
     | Option.some t => t.kind == .enum || t.kind == .scalar
     | Option.none => false)

/-- Modelled from the spec (`quoteIfNeeded` lives in `utils.ts`, not among the
provided sources): combine the non-empty parts — the sole part verbatim, or
all parts joined by the separator inside parentheses (`§4.5` step 7). -/
def quoteIfNeeded (parts : List String) (joinWith : String) : String :=
  match parts with
  | [] => ""
  | [x] => x
  | xs => "(" ++ String.intercalate joinWith xs ++ ")"

/-- Method `buildTypeNameField` (lines 174–188): no literal-typename record for a
union or interface parent; otherwise a one-field record for `__typename`,
optional (`?`) exactly when the selection did not query it explicitly. -/
def buildTypeNameField (p : NamedType) (queried : Bool) : Option String :=
  if p.kind == .union || p.kind == .interface then Option.none
  else
    Option.some ("\x7b __typename" ++ (if queried then "" else "?") ++ ": \x27"
      ++ p.name ++ "\x27 \x7d")

/-- Method `buildPrimitiveFields` (lines 190–196): a `Pick` over the parent type of
exactly the collected field names. -/
def buildPrimitiveFields (parentName : String) (fields : List String) :
    Option String :=
  if fields.isEmpty then Option.none
  else
    Option.some ("Pick<" ++ parentName ++ ", "
      ++ String.intercalate " | " (fields.map (fun f => "\x27" ++ f ++ "\x27"))
      ++ ">")

/-- Method `buildAliasedPrimitiveFields` (lines 198–206): a record mapping each alias
to the parent's declared type for the original field name. -/
def buildAliasedPrimitiveFields (parentName : String)
    (fields : List AliasedField) : Option String :=
  if fields.isEmpty then Option.none
  else
    Option.some ("\x7b "
      ++ String.intercalate ", "
        (fields.map (fun af =>
          af.aliasValue ++ ": " ++ parentName ++ "[\x27" ++ af.fieldName ++ "\x27]"))
      ++ " \x7d")

/-- The record key of a link field: `field.alias || field.name` (line 218);
a JS falsy alias (absent or empty) falls back to the field name. -/
def linkFieldKey (f : LinkField) : String :=
  match f.aliasValue with
  | Option.some a => if a == "" then f.name else a
  | Option.none => f.name

/-- Method `buildLinkFields` (lines 212–220): a record mapping each alias-or-name to
its (already wrapped) sub-selection string. -/
def buildLinkFields (fields : List LinkField) : Option String :=
  if fields.isEmpty then Option.none
  else
    Option.some ("\x7b "
      ++ String.intercalate ", "
        (fields.map (fun f => linkFieldKey f ++ ": " ++ f.selectionSet))
      ++ " \x7d")

/-- Method `buildInlineFragments` (lines 222–226): for each type-condition key join
its accumulated bodies with `&`, then join the per-key results with `|`
inside parentheses. -/
def buildInlineFragments (m : List (String × List String)) : Option String :=
  let allPossibleTypes := m.map (fun kv => String.intercalate " & " kv.2)
  if allPossibleTypes.isEmpty then Option.none
  else Option.some ("(" ++ String.intercalate " | " allPossibleTypes ++ ")")

/-- Method `buildFragmentSpread` (lines 228–242): the spread fragment names converted
with the `Fragment` suffix and combined with `&`. -/
def buildFragmentSpread (cfg : Config) (names : List String) : Option String :=
  if names.isEmpty then Option.none
  else
    Option.some
      (quoteIfNeeded (names.map (fun n => cfg.convertName n (Option.some "Fragment")))
        " & ")

/-- The tail of the `string` getter (lines 154–167): convert the parent name,
build the six parts in source order, drop the `null`/empty ones keeping the
order `[typename, primitives, aliased, links, spreads, inlines]`, and merge
with `&` (`mergeAllFields`, line 170). -/
def buildString (cfg : Config) (p : NamedType) (b : Buckets) : String :=
  let parentName := cfg.convertName p.name Option.none
  let typeNameF :=
    if cfg.addTypename || b.queriedForTypename then
      buildTypeNameField p b.queriedForTypename
    else Option.none
  let baseFields := buildPrimitiveFields parentName b.primitiveFields
  let aliasFields := buildAliasedPrimitiveFields parentName b.primitiveAliasedFields
  let links := buildLinkFields b.linksFields
  let spreads := buildFragmentSpread cfg b.fragmentSpreads
  let inlines := buildInlineFragments b.inlineFragments
  let fieldsSet :=
    ([typeNameF, baseFields, aliasFields, links, spreads, inlines].filterMap id).filter
      (fun s => s != "")
  quoteIfNeeded fieldsSet " & "

/-! ## The collector traversal

`_collectField`, `_collectFragmentSpread`, `_collectInlineFragment` and the
`string` getter (lines 75–168).  `createNext` (overridden by the visitor
subclasses, which are not among the provided sources) constructs a fresh
collector over the same configuration, per the spec's "recursively invoke a
fresh Selection Collector"; its forced `string` read is the recursive call
with `emptyBuckets` below.  The getter's guard
`!this._selectionSet || this._selectionSet.selections.length === 0` is split
over `SelOpt`/`SelList`. -/

mutual
/-- Methods `_collectField` / `_collectFragmentSpread` / `_collectInlineFragment`
applied to one selection node against the instance's parent schema type,
threading the instance's bucket state. -/
def collectOne (cfg : Config) (parent : Option NamedType) (b : Buckets) :
    SelNode → Except JsError Buckets
  | .field name aliasValue sub =>
    if name == "__typename" then .ok { b with queriedForTypename := true }
    else
      match parent with
      | Option.some p =>
        if p.kind == .object || p.kind == .interface then
          let schemaField :=
            if isRootTypeB p cfg.schema && isMetadataFieldName name then
              metadataFieldMap name
            else lookupField p name
          match schemaField with
          | Option.none => .error fieldTypeDerefError
          | Option.some fd =>
            let rawType := fd.type
            let typeName := baseNameOf rawType
            if isLeafBase cfg typeName then
              match aliasValue with
              | Option.some a =>
                if a == "" then
                  .ok { b with primitiveFields := b.primitiveFields ++ [name] }
                else
                  .ok { b with primitiveAliasedFields :=
                    b.primitiveAliasedFields ++ [⟨a, name⟩] }
              | Option.none =>
                .ok { b with primitiveFields := b.primitiveFields ++ [name] }
            else
              match stringGetOpt cfg (cfg.schema.getType typeName) sub emptyBuckets with
              | .error e => .error e
              | .ok (s, _) =>
                .ok { b with linksFields := b.linksFields
                  ++ [⟨aliasValue, name, typeName, cfg.wrapTypeWithModifiers s rawType⟩] }
        else .ok b
      | Option.none => .ok b
  | .fragmentSpread name =>
    .ok { b with fragmentSpreads := b.fragmentSpreads ++ [name] }
  | .inlineFragment onType sel =>
    match stringGetList cfg (cfg.schema.getType onType) sel emptyBuckets with
    | .error e => .error e
    | .ok (s, _) =>
      .ok { b with inlineFragments := pushInline b.inlineFragments onType s }

/-- The `for (const selection of selections)` loop of the `string` getter. -/
def collectSelections (cfg : Config) (parent : Option NamedType) (b : Buckets) :
    SelList → Except JsError Buckets
  | .nil => .ok b
  | .cons node rest =>
    match collectOne cfg parent b node with
    | .error e => .error e
    | .ok b' => collectSelections cfg parent b' rest

/-- The `string` getter of an instance whose `_selectionSet` is present:
empty selections yield `""`; otherwise collect every selection into the
instance's buckets (the head step inlined so the recursion is structural),
then dereference the parent type's name and compose. -/
def stringGetList (cfg : Config) (parent : Option NamedType) (sels : SelList)
    (b : Buckets) : Except JsError (String × Buckets) :=
  match sels with
  | .nil => .ok ("", b)
  | .cons node rest =>
    match collectOne cfg parent b node with
    | .error e => .error e
    | .ok b1 =>
      match collectSelections cfg parent b1 rest with
      | .error e => .error e
      | .ok b' =>
        match parent with
        | Option.none => .error parentNameDerefError
        | Option.some p => .ok (buildString cfg p b', b')

/-- The `string` getter of an instance: `undefined` selection sets yield
`""` with the buckets untouched. -/
def stringGetOpt (cfg : Config) (parent : Option NamedType) (selSet : SelOpt)
    (b : Buckets) : Except JsError (String × Buckets) :=
  match selSet with
  | .none => .ok ("", b)
  | .some l => stringGetList cfg parent l b
end

/-! ## `inner-models-builer.ts`: the flat named-model builder

`buildInnerModelsArray(schema, rootObject, selections, primitivesMap,
appendTo?, result = [])` walks a selection set and pushes flat, named
`Model` declarations onto `result`.  In the source, `appendTo` aliases an
object that (in every reachable call) is an element of `result` and is
mutated through the alias; the embedding therefore represents `appendTo` as
an optional index into `result`. -/

/-- One field entry of a `Model`: `{name, type, isArray, isRequired}`; `type`
is a plain name (either a mapped primitive name or the name of another
declaration), never an embedded body. -/
structure MField where
  name : String
  type : String
  isArray : Bool
  isRequired : Bool
deriving DecidableEq, Repr

/-- One inline-fragment reference pushed onto `appendTo.inlineFragments`:
`{typeName, onModel}`. -/
structure InlineFragmentRef where
  typeName : String
  onModel : String
deriving DecidableEq, Repr

/-- The `Model` declaration unit of `inner-models-builer.ts`. The
`usingFragments`/`hasInlineFragments` properties are absent (here `false`)
until the corresponding push sets them. -/
structure Model where
  name : String
  fields : List MField := []
  fragmentsUsed : List String := []
  inlineFragments : List InlineFragmentRef := []
  usingFragments : Bool := false
  hasInlineFragments : Bool := false
deriving DecidableEq, Repr

/-- Modelled from the spec (the `pascal-case` package is an external naming
policy, `§6`): a casing transform; for the single-token names this
development uses it capitalizes the first character. -/
def pascalCase (s : String) : String := s.capitalize

/-- Modelled from the spec (`§4.2`): the decimal rendering of a numeric
disambiguator (`2`, `3`, …), via `Nat.digits`. -/
def natDisambig (n : Nat) : String :=
  ((Nat.digits 10 n).reverse.map Nat.digitChar).asString

/-- Modelled from the spec (`handleNameDuplications` lives in `utils.ts`,
which is not among the provided sources; `§4.2`): if the candidate name
already names a declaration produced so far, append a numeric disambiguator
(`Name2`, `Name3`, …) until unique; always produces a name.  Trying
`used.length + 1` distinct disambiguated candidates guarantees one is free,
so the final fallback is unreachable. -/
def handleNameDuplications (name : String) (result : List Model) : String :=
  let used := result.map Model.name
  if used.contains name then
    match ((List.range (used.length + 1)).map
        (fun i => name ++ natDisambig (i + 2))).find?
        (fun c => !(used.contains c)) with
    | Option.some c => c
    | Option.none => name ++ natDisambig (used.length + 2)
  else name

/-- Modelled from the spec (`isArray` lives in `utils.ts`, not among the
provided sources; `§4.1`: the list flag is derived by unwrapping one
non-null wrapper and one list wrapper in the correct nesting order). -/
def isArray : GType → Bool
  | .list _ => true
  | .nonNull (.list _) => true
  | _ => false

/-- Modelled from the spec (`isRequired` lives in `utils.ts`, not among the
provided sources; `§4.1`): a type is required when its outermost wrapper is
non-null. -/
def isRequired : GType → Bool
  | .nonNull _ => true
  | _ => false

/-- Modelled from the spec (`getTypeName` lives in `utils.ts`, not among the
provided sources; `§6`: "a scalar classification table mapping custom scalar
names to leaf treatment"): map the base type name through the primitives
table, falling back to the name itself. -/
def getTypeName (primitivesMap : List (String × String)) (typeName : String) :
    String :=
  match primitivesMap.find? (fun kv => kv.1 == typeName) with
  | Option.some kv => kv.2
  | Option.none => typeName

/-- Modelled from the spec (`getFieldDef` lives in `utils.ts`, not among the
provided sources; `§6`: `getFieldDef(type, fieldName) -> FieldDef`): resolve
a field name on the resolved parent type; `undefined` (`Option.none`) when
the parent is `undefined` or has no such field. -/
def getFieldDef (rootObject : Option NamedType) (fieldName : String) :
    Option FieldDef :=
  match rootObject with
  | Option.some t => lookupField t fieldName
  | Option.none => Option.none

/-- The wrapping root declaration created at the first object-typed root
field: `{name: 'Result', fields: [], fragmentsUsed: [], inlineFragments: []}`. -/
def resultModel : Model := { name := "Result" }

/-- The expression `selectionNode.alias ? selectionNode.alias.value : fieldName`: the key
under which a field is recorded. -/
def propertyNameOf (aliasValue : Option String) (fieldName : String) : String :=
  match aliasValue with
  | Option.some a => a
  | Option.none => fieldName

/-- The push `appendTo.fields.push(...)` of one field entry: append one
field entry to a model. -/
def pushFieldEntry (propertyName typeName : String) (rawType : GType)
    (m : Model) : Model :=
  { m with fields := m.fields
      ++ [⟨propertyName, typeName, isArray rawType, isRequired rawType⟩] }

/-- In-place mutation of the `result` element the `appendTo` alias points at. -/
def modifyAt (r : List Model) (i : Nat) (f : Model → Model) : List Model :=
  match r, i with
  | [], _ => []
  | m :: rest, 0 => f m :: rest
  | m :: rest, j + 1 => m :: modifyAt rest j f

mutual
/-- The `forEach` body of `buildInnerModelsArray` over the remaining
selections, threading the `appendTo` alias (an index into `result`, `none`
while still `undefined`) because the root-level branch assigns it. -/
def biLoop (schema : Schema) (rootObject : Option NamedType) (sels : SelList)
    (primitivesMap : List (String × String)) (appendTo : Option Nat)
    (result : List Model) : Except JsError (Option Nat × List Model) :=
  match sels with
  | .nil => .ok (appendTo, result)
  | .cons node rest =>
    match node with
    | .field fieldName aliasValue sub =>
      let propertyName := propertyNameOf aliasValue fieldName
      match getFieldDef rootObject fieldName with
      | Option.none => .error fieldTypeDerefError
      | Option.some fd =>
        let rawType := fd.type
        let baseName := baseNameOf rawType
        let actualType := schema.getType baseName
        if (actualType.map NamedType.kind) == Option.some TypeKind.object then
          let modelName := handleNameDuplications (pascalCase fieldName) result
          let idx := result.length
          let result1 := result ++ [{ name := modelName }]
          match buildInnerModelsArray schema actualType sub primitivesMap
              (Option.some idx) result1 with
          | .error e => .error e
          | .ok result2 =>
            match appendTo with
            | Option.some i =>
              let result3 := modifyAt result2 i
                (pushFieldEntry propertyName modelName rawType)
              biLoop schema rootObject rest primitivesMap (Option.some i) result3
            | Option.none =>
              let j := result2.length
              let result3 := result2 ++ [resultModel]
              let result4 := modifyAt result3 j
                (pushFieldEntry propertyName modelName rawType)
              biLoop schema rootObject rest primitivesMap (Option.some j) result4
        else
          match appendTo with
          | Option.none => .error appendToDerefError
          | Option.some i =>
            let result1 := modifyAt result i
              (pushFieldEntry propertyName (getTypeName primitivesMap baseName) rawType)
            biLoop schema rootObject rest primitivesMap (Option.some i) result1
    | .fragmentSpread fragName =>
      match appendTo with
      | Option.none => .error appendToDerefError
      | Option.some i =>
        let result1 := modifyAt result i (fun m =>
          { m with fragmentsUsed := m.fragmentsUsed ++ [pascalCase fragName],
                   usingFragments := true })
        biLoop schema rootObject rest primitivesMap (Option.some i) result1
    | .inlineFragment cond isel =>
      let root := schema.getType cond
      let iname := cond ++ "InlineFragment"
      match appendTo with
      | Option.none => .error appendToDerefError
      | Option.some i =>
        let result1 := modifyAt result i (fun m =>
          { m with inlineFragments := m.inlineFragments ++ [⟨iname, cond⟩],
                   hasInlineFragments := true })
        let idx := result1.length
        let result2 := result1 ++ [{ name := iname }]
        match biLoop schema root isel primitivesMap (Option.some idx) result2 with
        | .error e => .error e
        | .ok (_, result3) =>
          biLoop schema rootObject rest primitivesMap appendTo result3

/-- Function `buildInnerModelsArray` from `inner-models-builer.ts`: iterate
`selections ? selections.selections : []` via `biLoop` and return the
(mutated) `result` collection. -/
def buildInnerModelsArray (schema : Schema) (rootObject : Option NamedType)
    (selections : SelOpt) (primitivesMap : List (String × String))
    (appendTo : Option Nat) (result : List Model) :
    Except JsError (List Model) :=
  match selections with
  | .none => .ok result
  | .some l =>
    match biLoop schema rootObject l primitivesMap appendTo result with
    | .error e => .error e
    | .ok (_, r) => .ok r
end

/-! ## Concrete fixtures used by witnesses and counterexamples -/

/-- A built-in scalar type. -/
def stringT : NamedType := { name := "String", kind := .scalar }

/-- A second built-in scalar type. -/
def intT : NamedType := { name := "Int", kind := .scalar }

/-- Schema type `Person` with scalar fields `name: String` and `age: Int`. -/
def personT : NamedType :=
  { name := "Person", kind := .object,
    fields := [("name", ⟨.named "String"⟩), ("age", ⟨.named "Int"⟩)] }

/-- Schema type `Cat` with scalar field `meow: String`. -/
def catT : NamedType :=
  { name := "Cat", kind := .object, fields := [("meow", ⟨.named "String"⟩)] }

/-- Schema type `Dog` with scalar field `bark: String`. -/
def dogT : NamedType :=
  { name := "Dog", kind := .object, fields := [("bark", ⟨.named "String"⟩)] }

/-- Schema union type `Animal = Cat | Dog`. -/
def animalU : NamedType := { name := "Animal", kind := .union }

/-- Schema type `Pet` (an object with no fields used as an inline-fragment parent). -/
def petT : NamedType := { name := "Pet", kind := .object }

/-- Schema root type `Query` with object fields `pet`, `person` and union field `animal`. -/
def queryT : NamedType :=
  { name := "Query", kind := .object,
    fields := [("pet", ⟨.named "Pet"⟩), ("person", ⟨.named "Person"⟩),
               ("animal", ⟨.named "Animal"⟩)] }

/-- The sample schema for witnesses and counterexamples. -/
def sampleSchema : Schema :=
  { types := [queryT, personT, animalU, catT, dogT, petT, stringT, intT],
    queryTypeName := Option.some "Query" }

/-- The sample collector configuration: identity-ish naming policy, typename
injection off, wrapper rendering that returns the body unchanged. -/
def cfgSample : Config :=
  { scalars := [], schema := sampleSchema,
    convertName := fun n s => n ++ (s.getD ""), addTypename := false,
    wrapTypeWithModifiers := fun s _ => s }

/-- The inline-fragment body `{ meow }` used by the C3 counterexample. -/
def catBody : SelList := .cons (.field "meow" Option.none .none) .nil

/-- The C3 counterexample document:
`{ pet { ... on Cat { meow } ... on Cat { meow } } }`. -/
def selsC3 : SelOpt :=
  .some (.cons
    (.field "pet" Option.none
      (.some (.cons (.inlineFragment "Cat" catBody)
        (.cons (.inlineFragment "Cat" catBody) .nil))))
    .nil)

/-- The C9 counterexample selection `{ name }` against `Person`. -/
def selsC9 : SelList := .cons (.field "name" Option.none .none) .nil

/-- Monotone evolution of the declaration collection: every declaration
present before keeps its position and name, and every field entry already
recorded on it persists (`buildInnerModelsArray` only appends declarations
and pushes entries onto existing ones). -/
abbrev Grows (r r' : List Model) : Prop :=
  ∀ (i : Nat) (m : Model), r[i]? = Option.some m →
    ∃ m' : Model, r'[i]? = Option.some m' ∧ m'.name = m.name
      ∧ ∀ f : MField, f ∈ m.fields → f ∈ m'.fields

end GqlGen

namespace GqlGen

/-! ## Helper lemmas -/

/-- For a non-empty selection list the getter is: run the full collection
loop, then dereference the parent name and compose. -/
theorem stringGetList_cons_eq (cfg : Config) (parent : Option NamedType)
    (h : SelNode) (t : SelList) (b : Buckets) :
    stringGetList cfg parent (.cons h t) b
      = match collectSelections cfg parent b (.cons h t) with
        | .error e => .error e
        | .ok b' =>
          match parent with
          | Option.none => .error parentNameDerefError
          | Option.some p => .ok (buildString cfg p b', b') := by
  cases hc : collectOne cfg parent b h <;>
    simp [stringGetList, collectSelections, hc]

/-- If one selection of a list fails (independently of the incoming bucket
state), the whole collection loop fails. -/
theorem collectSelections_error_of_mem (cfg : Config) (parent : Option NamedType)
    (x : SelNode) (hx : ∀ b, ∃ e, collectOne cfg parent b x = .error e) :
    ∀ (sels : SelList), SelList.Mem x sels →
      ∀ b, ∃ e, collectSelections cfg parent b sels = .error e
  | .nil, hm, _ => absurd hm (by simp [SelList.Mem])
  | .cons h t, hm, b => by
    have hm' : x = h ∨ SelList.Mem x t := hm
    rcases hm' with heq | hmem
    · subst heq
      obtain ⟨e, he⟩ := hx b
      exact ⟨e, by simp [collectSelections, he]⟩
    · cases hc : collectOne cfg parent b h with
      | error e => exact ⟨e, by simp [collectSelections, hc]⟩
      | ok b1 =>
        obtain ⟨e, he⟩ :=
          collectSelections_error_of_mem cfg parent x hx t hmem b1
        exact ⟨e, by simp [collectSelections, hc, he]⟩

/-- If one selection of a non-empty list fails (independently of the incoming
bucket state), the whole `string` read fails. -/
theorem stringGetList_error_of_mem (cfg : Config) (parent : Option NamedType)
    (x : SelNode) (sels : SelList) (hm : SelList.Mem x sels)
    (hx : ∀ b, ∃ e, collectOne cfg parent b x = .error e) (b : Buckets) :
    ∃ e, stringGetList cfg parent sels b = .error e := by
  cases sels with
  | nil => exact absurd hm (by simp [SelList.Mem])
  | cons h t =>
    obtain ⟨e, he⟩ :=
      collectSelections_error_of_mem cfg parent x hx (.cons h t) hm b
    exact ⟨e, by rw [stringGetList_cons_eq, he]⟩

/-- A collector whose parent type is `undefined` fails on any non-empty
selection list: every field is silently skipped, but the getter then
dereferences `this._parentSchemaType.name`. -/
theorem stringGetList_none_parent_error (cfg : Config) (sels : SelList)
    (hne : sels ≠ .nil) (b : Buckets) :
    ∃ e, stringGetList cfg Option.none sels b = .error e := by
  cases sels with
  | nil => exact absurd rfl hne
  | cons h t =>
    rw [stringGetList_cons_eq]
    cases hc : collectSelections cfg Option.none b (.cons h t) with
    | error e => exact ⟨e, by simp⟩
    | ok b' => exact ⟨parentNameDerefError, by simp⟩

/-! ## C8 — empty/absent selection sets -/

/-- C8: a selection set with zero selections, or an absent selection set,
produces an empty/absent body (`""` from the string collector, the untouched
collection from the model builder) and never an error, in both
implementations. -/
theorem c8_empty_selection_ok (cfg : Config) (parent : Option NamedType)
    (b : Buckets) (schema : Schema) (root : Option NamedType)
    (pm : List (String × String)) (app : Option Nat) (res : List Model) :
    stringGetOpt cfg parent .none b = .ok ("", b)
    ∧ stringGetOpt cfg parent (.some .nil) b = .ok ("", b)
    ∧ buildInnerModelsArray schema root .none pm app res = .ok res
    ∧ buildInnerModelsArray schema root (.some .nil) pm app res = .ok res :=
  ⟨rfl, rfl, rfl, rfl⟩

/-! ## C7 — determinism -/

/-- C7: synthesis is a pure function of its inputs — two runs over equal
inputs return equal outputs, for both the string collector and the flat
model builder. -/
theorem c7_determinism (cfg1 cfg2 : Config) (parent1 parent2 : Option NamedType)
    (sel1 sel2 : SelOpt) (schema1 schema2 : Schema) (root1 root2 : Option NamedType)
    (d1 d2 : SelOpt) (pm1 pm2 : List (String × String))
    (hc : cfg1 = cfg2) (hp : parent1 = parent2) (hs : sel1 = sel2)
    (h1 : schema1 = schema2) (h2 : root1 = root2) (h3 : d1 = d2) (h4 : pm1 = pm2) :
    stringGetOpt cfg1 parent1 sel1 emptyBuckets
        = stringGetOpt cfg2 parent2 sel2 emptyBuckets
    ∧ buildInnerModelsArray schema1 root1 d1 pm1 Option.none []
        = buildInnerModelsArray schema2 root2 d2 pm2 Option.none [] := by
  subst hc hp hs h1 h2 h3 h4
  exact ⟨rfl, rfl⟩

/-- C7 witness: the two runs coincide on a concrete schema and document. -/
theorem c7_determinism_witness :
    stringGetOpt cfgSample (Option.some personT) (.some selsC9) emptyBuckets
        = stringGetOpt cfgSample (Option.some personT) (.some selsC9) emptyBuckets
    ∧ buildInnerModelsArray sampleSchema (Option.some queryT) selsC3 []
          Option.none []
        = buildInnerModelsArray sampleSchema (Option.some queryT) selsC3 []
          Option.none [] :=
  c7_determinism cfgSample cfgSample (Option.some personT) (Option.some personT)
    (.some selsC9) (.some selsC9) sampleSchema sampleSchema
    (Option.some queryT) (Option.some queryT) selsC3 selsC3 [] []
    rfl rfl rfl rfl rfl rfl rfl

/-! ## C6 — `__typename` marking -/

/-- C6: for a non-polymorphic parent the synthesized `__typename` field is
optional when not explicitly selected and required when explicitly selected;
for a union or interface parent no literal-typename record is emitted; and
collecting an explicit `__typename` selection sets the instance's
`_queriedForTypename` flag (and contributes no bucket entry). -/
theorem c6_typename_marking (cfg : Config) (parent : Option NamedType)
    (b : Buckets) (p : NamedType) (aliasV : Option String) (sub : SelOpt) :
    (p.kind ≠ .union → p.kind ≠ .interface →
      buildTypeNameField p false
          = Option.some ("\x7b __typename?: \x27" ++ p.name ++ "\x27 \x7d")
        ∧ buildTypeNameField p true
          = Option.some ("\x7b __typename: \x27" ++ p.name ++ "\x27 \x7d"))
    ∧ ((p.kind = .union ∨ p.kind = .interface) →
        ∀ q : Bool, buildTypeNameField p q = Option.none)
    ∧ collectOne cfg parent b (.field "__typename" aliasV sub)
        = .ok { b with queriedForTypename := true } := by
  refine ⟨fun h1 h2 => ?_, fun h q => ?_, ?_⟩
  · have hcond : (p.kind == TypeKind.union || p.kind == TypeKind.interface) = false := by
      cases hk : p.kind <;> simp_all
    have hopt : "\x7b __typename" ++ "?" ++ ": \x27" = "\x7b __typename?: \x27" := rfl
    have hreq : "\x7b __typename" ++ "" ++ ": \x27" = "\x7b __typename: \x27" := rfl
    constructor
    · simp only [buildTypeNameField, hcond, Bool.false_eq_true, if_false,
        Bool.false_eq_true, reduceIte, hopt]
    · simp only [buildTypeNameField, hcond, Bool.false_eq_true, if_false,
        reduceIte, hreq]
  · have hcond : (p.kind == TypeKind.union || p.kind == TypeKind.interface) = true := by
      rcases h with h | h <;> simp [h]
    simp [buildTypeNameField, hcond]
  · simp [collectOne]

/-- C6 witness: evaluated on `Person` (optional/required forms) and on the
union `Animal` (no record), with an explicit `__typename` collection. -/
theorem c6_typename_marking_witness :
    (buildTypeNameField personT false
        = Option.some ("\x7b __typename?: \x27" ++ "Person" ++ "\x27 \x7d")
      ∧ buildTypeNameField personT true
        = Option.some ("\x7b __typename: \x27" ++ "Person" ++ "\x27 \x7d"))
    ∧ buildTypeNameField animalU false = Option.none
    ∧ collectOne cfgSample (Option.some personT) emptyBuckets
        (.field "__typename" Option.none .none)
        = .ok { emptyBuckets with queriedForTypename := true } := by
  refine ⟨?_, ?_, ?_⟩
  · exact (c6_typename_marking cfgSample (Option.some personT) emptyBuckets
      personT Option.none .none).1 (by decide) (by decide)
  · exact ((c6_typename_marking cfgSample (Option.some animalU) emptyBuckets
      animalU Option.none .none).2.1 (Or.inl rfl)) false
  · exact (c6_typename_marking cfgSample (Option.some personT) emptyBuckets
      personT Option.none .none).2.2

/-! ## C1 — unknown field -/

/-- C1 (amended): when the resolved parent type is an Object or Interface
type, a selected field with no matching `FieldDef` (and which is neither
`__typename` nor a root meta-field) makes the whole run fail — the
`UnknownFieldError` of the spec, realized as the `TypeError` thrown by
`schemaField.type` on the `undefined` lookup result.  (On a union parent the
claim's universal form fails; see the counterexample.) -/
theorem c1_unknown_field_fails (cfg : Config) (p : NamedType) (name : String)
    (aliasV : Option String) (sub : SelOpt) (sels : SelList) (b : Buckets)
    (hmem : SelList.Mem (.field name aliasV sub) sels)
    (hkind : p.kind = .object ∨ p.kind = .interface)
    (hname : name ≠ "__typename")
    (hmeta : (isRootTypeB p cfg.schema && isMetadataFieldName name) = false)
    (hlook : lookupField p name = Option.none) :
    ∃ e, stringGetList cfg (Option.some p) sels b = .error e := by
  apply stringGetList_error_of_mem cfg (Option.some p) _ sels hmem
  intro b'
  refine ⟨fieldTypeDerefError, ?_⟩
  have hbeq : (name == "__typename") = false := by simp [hname]
  have hk : (p.kind == TypeKind.object || p.kind == TypeKind.interface) = true := by
    rcases hkind with h | h <;> simp [h]
  simp [collectOne, hbeq, hk, hmeta, hlook]

/-- C1 witness: selecting the unknown field `nope` on `Person` aborts the
run with an error. -/
theorem c1_unknown_field_fails_witness :
    SelList.Mem (.field "nope" Option.none .none)
        (.cons (.field "nope" Option.none .none) .nil)
    ∧ lookupField personT "nope" = Option.none
    ∧ ∃ e, stringGetList cfgSample (Option.some personT)
        (.cons (.field "nope" Option.none .none) .nil) emptyBuckets = .error e :=
  ⟨Or.inl rfl, rfl,
    c1_unknown_field_fails cfgSample personT "nope" Option.none .none
      (.cons (.field "nope" Option.none .none) .nil) emptyBuckets
      (Or.inl rfl) (Or.inl rfl) (by decide) rfl rfl⟩

/-- C1 counterexample: the claim as stated is false — on the union parent
`Animal`, the field `someField` has no matching `FieldDef` (a union owns no
fields) and is not a root meta-field, yet `_collectField`'s
`isObjectType || isInterfaceType` guard silently skips it and the run
succeeds with an empty body instead of failing. -/
theorem c1_counterexample :
    stringGetList cfgSample (Option.some animalU)
      (.cons (.field "someField" Option.none .none) .nil) emptyBuckets
      = .ok ("", emptyBuckets) := rfl

/-! ## C4 — unknown inline-fragment type condition -/

/-- C4: an inline fragment whose type condition names a type absent from the
schema makes the whole run fail (for any non-empty inline selection set,
which the GraphQL grammar guarantees): `schema.getType` yields `undefined`,
the recursive collector is created over the `undefined` parent, and forcing
its `string` throws when dereferencing `this._parentSchemaType.name` — the
`UnknownTypeError` of the spec. -/
theorem c4_unknown_type_fails (cfg : Config) (parent : Option NamedType)
    (sels : SelList) (b : Buckets) (t : String) (s : SelList)
    (hmem : SelList.Mem (.inlineFragment t s) sels)
    (hget : cfg.schema.getType t = Option.none)
    (hne : s ≠ .nil) :
    ∃ e, stringGetList cfg parent sels b = .error e := by
  apply stringGetList_error_of_mem cfg parent _ sels hmem
  intro b'
  obtain ⟨e, he⟩ := stringGetList_none_parent_error cfg s hne emptyBuckets
  exact ⟨e, by simp [collectOne, hget, he]⟩

/-- C4 witness: `... on Ghost { x }` with `Ghost` absent from the sample
schema aborts the run. -/
theorem c4_unknown_type_fails_witness :
    SelList.Mem (.inlineFragment "Ghost" (.cons (.field "x" Option.none .none) .nil))
        (.cons (.inlineFragment "Ghost" (.cons (.field "x" Option.none .none) .nil)) .nil)
    ∧ sampleSchema.getType "Ghost" = Option.none
    ∧ ∃ e, stringGetList cfgSample (Option.some personT)
        (.cons (.inlineFragment "Ghost" (.cons (.field "x" Option.none .none) .nil)) .nil)
        emptyBuckets = .error e :=
  ⟨Or.inl rfl, rfl,
    c4_unknown_type_fails cfgSample (Option.some personT)
      (.cons (.inlineFragment "Ghost" (.cons (.field "x" Option.none .none) .nil)) .nil)
      emptyBuckets "Ghost" (.cons (.field "x" Option.none .none) .nil)
      (Or.inl rfl) rfl (fun h => SelList.noConfusion h)⟩

/-! ## C5 — inline fragment accumulation and union composition -/

/-- C5: inline fragments sharing a type condition accumulate under the same
key (appended, not replaced) and are combined by structural AND, while
distinct type conditions stay under distinct keys; the composed result is a
union (`|`) over the per-type-condition AND-combined bodies, so no single
branch requires the fields of two distinct type conditions. -/
theorem c5_inline_fragment_union (cfg : Config) (parent : Option NamedType)
    (t u : String) (s1 s2 s3 : SelList) (b1 b2 b3 : String) (k1 k2 k3 : Buckets)
    (htu : t ≠ u)
    (h1 : stringGetList cfg (cfg.schema.getType t) s1 emptyBuckets = .ok (b1, k1))
    (h2 : stringGetList cfg (cfg.schema.getType t) s2 emptyBuckets = .ok (b2, k2))
    (h3 : stringGetList cfg (cfg.schema.getType u) s3 emptyBuckets = .ok (b3, k3)) :
    collectSelections cfg parent emptyBuckets
        (.cons (.inlineFragment t s1) (.cons (.inlineFragment t s2)
          (.cons (.inlineFragment u s3) .nil)))
      = .ok { emptyBuckets with inlineFragments := [(t, [b1, b2]), (u, [b3])] }
    ∧ buildInlineFragments [(t, [b1, b2]), (u, [b3])]
      = Option.some ("(" ++ (b1 ++ " & " ++ b2 ++ " | " ++ b3) ++ ")") := by
  have hne : (t == u) = false := by simp [htu]
  constructor
  · simp only [emptyBuckets] at h1 h2 h3
    simp [collectSelections, collectOne, h1, h2, h3, pushInline, hne, emptyBuckets]
  · have e1 : String.intercalate " & " [b1, b2] = b1 ++ " & " ++ b2 := rfl
    have e2 : String.intercalate " & " [b3] = b3 := rfl
    have e3 : String.intercalate " | " [b1 ++ " & " ++ b2, b3]
        = b1 ++ " & " ++ b2 ++ " | " ++ b3 := rfl
    simp [buildInlineFragments, e1, e2, e3]

/-- C5 witness: `{ ... on Cat { meow } ... on Cat { meow } ... on Dog { bark } }`
accumulates the two `Cat` branches under one key and composes
`(catBody & catBody | dogBody)`. -/
theorem c5_inline_fragment_union_witness :
    ("Cat" : String) ≠ "Dog"
    ∧ collectSelections cfgSample (Option.some animalU) emptyBuckets
        (.cons (.inlineFragment "Cat" catBody) (.cons (.inlineFragment "Cat" catBody)
          (.cons (.inlineFragment "Dog" (.cons (.field "bark" Option.none .none) .nil)) .nil)))
      = .ok { emptyBuckets with inlineFragments :=
          [("Cat", ["Pick<Cat, \x27meow\x27>", "Pick<Cat, \x27meow\x27>"]),
           ("Dog", ["Pick<Dog, \x27bark\x27>"])] }
    ∧ buildInlineFragments
        [("Cat", ["Pick<Cat, \x27meow\x27>", "Pick<Cat, \x27meow\x27>"]),
         ("Dog", ["Pick<Dog, \x27bark\x27>"])]
      = Option.some ("(" ++ ("Pick<Cat, \x27meow\x27>" ++ " & " ++ "Pick<Cat, \x27meow\x27>"
          ++ " | " ++ "Pick<Dog, \x27bark\x27>") ++ ")") := by
  have h := c5_inline_fragment_union cfgSample (Option.some animalU) "Cat" "Dog"
    catBody catBody (.cons (.field "bark" Option.none .none) .nil)
    "Pick<Cat, \x27meow\x27>" "Pick<Cat, \x27meow\x27>" "Pick<Dog, \x27bark\x27>"
    { emptyBuckets with primitiveFields := ["meow"] }
    { emptyBuckets with primitiveFields := ["meow"] }
    { emptyBuckets with primitiveFields := ["bark"] }
    (by decide) rfl rfl rfl
  exact ⟨by decide, h.1, h.2⟩

/-! ## Bucket-delta and string-length utilities -/

/-- Replaying a concatenation of push sequences is replaying them in turn. -/
theorem applyPushes_append (m : List (String × List String))
    (ps qs : List (String × String)) :
    applyPushes m (ps ++ qs) = applyPushes (applyPushes m ps) qs := by
  simp [applyPushes, List.foldl_append]

/-- A push never empties the inline-fragment bucket. -/
theorem pushInline_ne_nil (m : List (String × List String)) (k v : String) :
    pushInline m k v ≠ [] := by
  cases m with
  | nil => simp [pushInline]
  | cons x xs =>
    by_cases h : ((x :: xs).any fun kv => kv.1 == k) = true <;> simp [pushInline, h]

/-- Replaying a non-empty push sequence yields a non-empty bucket. -/
theorem applyPushes_ne_nil :
    ∀ (ps : List (String × String)) (m : List (String × List String)),
      ps ≠ [] → applyPushes m ps ≠ []
  | [], _, h => absurd rfl h
  | p :: ps', m, _ => by
    show applyPushes (pushInline m p.1 p.2) ps' ≠ []
    cases ps' with
    | nil => exact pushInline_ne_nil m p.1 p.2
    | cons q qs => exact applyPushes_ne_nil (q :: qs) _ (by simp)

/-- A string of positive length is not empty. -/
theorem ne_empty_of_length_pos (s : String) (h : 0 < s.length) : s ≠ "" := by
  intro he
  rw [he] at h
  have h0 : ("" : String).length = 0 := rfl
  omega

/-- A non-empty string has positive length. -/
theorem length_pos_of_ne_empty (y : String) (hy : y ≠ "") : 0 < y.length := by
  rcases y with ⟨data⟩
  cases data with
  | nil => exact absurd rfl hy
  | cons c cs => simp [String.length]

/-- Appending a non-empty string yields a non-empty string. -/
theorem append_ne_empty_right (x y : String) (hy : y ≠ "") : x ++ y ≠ "" := by
  apply ne_empty_of_length_pos
  rw [String.length_append]
  have := length_pos_of_ne_empty y hy
  omega

/-- Length of the `String.intercalate` worker. -/
theorem intercalate_go_length :
    ∀ (l : List String) (acc sep : String),
      (String.intercalate.go acc sep l).length
        = acc.length + (l.map (fun s => sep.length + s.length)).sum
  | [], acc, sep => by simp [String.intercalate.go]
  | a :: as, acc, sep => by
    rw [show String.intercalate.go acc sep (a :: as)
        = String.intercalate.go (acc ++ sep ++ a) sep as from rfl]
    rw [intercalate_go_length as (acc ++ sep ++ a) sep]
    simp only [String.length_append, List.map_cons, List.sum_cons]
    omega

/-- Length of `String.intercalate` on a non-empty list. -/
theorem intercalate_length (sep x : String) (xs : List String) :
    (String.intercalate sep (x :: xs)).length
      = x.length + (xs.map (fun s => sep.length + s.length)).sum := by
  rw [show String.intercalate sep (x :: xs) = String.intercalate.go x sep xs from rfl]
  rw [intercalate_go_length]

/-- Doubling a non-empty list strictly lengthens its intercalation (for a
non-empty separator). -/
theorem intercalate_double_lt (sep : String) (hsep : 0 < sep.length)
    (L : List String) (hL : L ≠ []) :
    (String.intercalate sep L).length < (String.intercalate sep (L ++ L)).length := by
  cases L with
  | nil => exact absurd rfl hL
  | cons x xs =>
    rw [show (x :: xs) ++ (x :: xs) = x :: (xs ++ x :: xs) from rfl]
    rw [intercalate_length, intercalate_length]
    rw [List.map_append, List.sum_append]
    simp only [List.map_cons, List.sum_cons]
    omega

/-- Collecting one selection appends deltas that do not depend on the incoming
bucket state: if the collection of a node succeeds from some state, it succeeds
from every state, producing `bucketsWithDeltas` for one fixed tuple of deltas
(the collector only ever appends, pushes and or-s). -/
theorem collectOne_deltas (cfg : Config) (parent : Option NamedType)
    (node : SelNode) (b b' : Buckets) (h : collectOne cfg parent b node = .ok b') :
    ∃ dp da dl ds ps dq, ∀ c : Buckets,
      collectOne cfg parent c node = .ok (bucketsWithDeltas c dp da dl ds ps dq) := by
  cases node with
  | field name aliasV sub =>
    cases hn : name == "__typename" with
    | true =>
      refine ⟨[], [], [], [], [], true, fun c => ?_⟩
      obtain ⟨cp, ca, cl, cs, ci, cq⟩ := c
      simp [collectOne, hn, bucketsWithDeltas, applyPushes]
    | false =>
      cases parent with
      | none =>
        refine ⟨[], [], [], [], [], false, fun c => ?_⟩
        obtain ⟨cp, ca, cl, cs, ci, cq⟩ := c
        simp [collectOne, hn, bucketsWithDeltas, applyPushes]
      | some p =>
        cases hk : (p.kind == TypeKind.object || p.kind == TypeKind.interface) with
        | false =>
          refine ⟨[], [], [], [], [], false, fun c => ?_⟩
          obtain ⟨cp, ca, cl, cs, ci, cq⟩ := c
          simp [collectOne, hn, hk, bucketsWithDeltas, applyPushes]
        | true =>
          cases hsf : (if isRootTypeB p cfg.schema && isMetadataFieldName name then
              metadataFieldMap name else lookupField p name) with
          | none =>
            have hsf' := hsf
            simp only [Bool.and_eq_true] at hsf'
            simp [collectOne, hn, hk, hsf'] at h
          | some fd =>
            simp only [Bool.and_eq_true] at hsf
            cases hleaf : isLeafBase cfg (baseNameOf fd.type) with
            | true =>
              cases aliasV with
              | none =>
                refine ⟨[name], [], [], [], [], false, fun c => ?_⟩
                obtain ⟨cp, ca, cl, cs, ci, cq⟩ := c
                simp [collectOne, hn, hk, hsf, hleaf, bucketsWithDeltas, applyPushes]
              | some av =>
                cases hav : av == "" with
                | true =>
                  refine ⟨[name], [], [], [], [], false, fun c => ?_⟩
                  obtain ⟨cp, ca, cl, cs, ci, cq⟩ := c
                  simp [collectOne, hn, hk, hsf, hleaf, hav, bucketsWithDeltas,
                    applyPushes]
                | false =>
                  refine ⟨[], [⟨av, name⟩], [], [], [], false, fun c => ?_⟩
                  obtain ⟨cp, ca, cl, cs, ci, cq⟩ := c
                  simp [collectOne, hn, hk, hsf, hleaf, hav, bucketsWithDeltas,
                    applyPushes]
            | false =>
              cases hsub : stringGetOpt cfg (cfg.schema.getType (baseNameOf fd.type))
                  sub emptyBuckets with
              | error e => simp [collectOne, hn, hk, hsf, hleaf, hsub] at h
              | ok pr =>
                refine ⟨[], [], [⟨aliasV, name, baseNameOf fd.type,
                  cfg.wrapTypeWithModifiers pr.1 fd.type⟩], [], [], false, fun c => ?_⟩
                obtain ⟨cp, ca, cl, cs, ci, cq⟩ := c
                obtain ⟨s, k⟩ := pr
                simp [collectOne, hn, hk, hsf, hleaf, hsub, bucketsWithDeltas,
                  applyPushes]
  | fragmentSpread name =>
    refine ⟨[], [], [], [name], [], false, fun c => ?_⟩
    obtain ⟨cp, ca, cl, cs, ci, cq⟩ := c
    simp [collectOne, bucketsWithDeltas, applyPushes]
  | inlineFragment t s =>
    cases hsub : stringGetList cfg (cfg.schema.getType t) s emptyBuckets with
    | error e => simp [collectOne, hsub] at h
    | ok pr =>
      refine ⟨[], [], [], [], [(t, pr.1)], false, fun c => ?_⟩
      obtain ⟨cp, ca, cl, cs, ci, cq⟩ := c
      obtain ⟨s', k⟩ := pr
      simp [collectOne, hsub, bucketsWithDeltas, applyPushes]

/-- Collecting a selection list appends deltas that do not depend on the
incoming bucket state: a successful collection succeeds from every state,
appending one fixed tuple of deltas. -/
theorem collectSelections_deltas (cfg : Config) (parent : Option NamedType) :
    ∀ (sels : SelList) (b b' : Buckets),
      collectSelections cfg parent b sels = .ok b' →
      ∃ dp da dl ds ps dq, ∀ c : Buckets,
        collectSelections cfg parent c sels
          = .ok (bucketsWithDeltas c dp da dl ds ps dq)
  | .nil, b, b', h => by
    refine ⟨[], [], [], [], [], false, fun c => ?_⟩
    obtain ⟨cp, ca, cl, cs, ci, cq⟩ := c
    simp [collectSelections, bucketsWithDeltas, applyPushes]
  | .cons node rest, b, b', h => by
    cases h1 : collectOne cfg parent b node with
    | error e => simp [collectSelections, h1] at h
    | ok b₁ =>
      have h2 : collectSelections cfg parent b₁ rest = .ok b' := by
        simpa [collectSelections, h1] using h
      obtain ⟨dp₁, da₁, dl₁, ds₁, ps₁, dq₁, hc₁⟩ :=
        collectOne_deltas cfg parent node b b₁ h1
      obtain ⟨dp₂, da₂, dl₂, ds₂, ps₂, dq₂, hc₂⟩ :=
        collectSelections_deltas cfg parent rest b₁ b' h2
      refine ⟨dp₁ ++ dp₂, da₁ ++ da₂, dl₁ ++ dl₂, ds₁ ++ ds₂, ps₁ ++ ps₂,
        dq₁ || dq₂, fun c => ?_⟩
      have hcc := hc₂ (bucketsWithDeltas c dp₁ da₁ dl₁ ds₁ ps₁ dq₁)
      simp only [collectSelections, hc₁ c]
      rw [hcc]
      obtain ⟨cp, ca, cl, cs, ci, cq⟩ := c
      simp [bucketsWithDeltas, applyPushes_append, Bool.or_assoc]

/-- A successful collection determines the result as `bucketsWithDeltas` of
its start state. -/
theorem collect_result_eq_deltas (cfg : Config) (parent : Option NamedType)
    (sels : SelList) (b b' : Buckets)
    (h : collectSelections cfg parent b sels = .ok b')
    (dp : List String) (da : List AliasedField) (dl : List LinkField)
    (ds : List String) (ps : List (String × String)) (dq : Bool)
    (hc : ∀ c : Buckets, collectSelections cfg parent c sels
      = .ok (bucketsWithDeltas c dp da dl ds ps dq)) :
    b' = bucketsWithDeltas b dp da dl ds ps dq := by
  rw [hc b] at h
  injection h with h
  exact h.symm

/-- Collecting a selection list that contains a resolving plain leaf field
strictly grows the primitive-field bucket. -/
theorem collect_primField_growth (cfg : Config) (p : NamedType) (name : String)
    (sub : SelOpt) (fd : FieldDef)
    (hkind : p.kind = .object ∨ p.kind = .interface)
    (hname : name ≠ "__typename")
    (hmeta : (isRootTypeB p cfg.schema && isMetadataFieldName name) = false)
    (hlook : lookupField p name = Option.some fd)
    (hleaf : isLeafBase cfg (baseNameOf fd.type) = true) :
    ∀ (sels : SelList) (b b' : Buckets),
      SelList.Mem (.field name Option.none sub) sels →
      collectSelections cfg (Option.some p) b sels = .ok b' →
      b.primitiveFields.length < b'.primitiveFields.length
  | .nil, _, _, hm, _ => absurd hm (by simp [SelList.Mem])
  | .cons node rest, b, b', hm, h => by
    have hnb : (name == "__typename") = false := by simp [hname]
    have hkb : (p.kind == TypeKind.object || p.kind == TypeKind.interface) = true := by
      rcases hkind with hh | hh <;> simp [hh]
    have hm' : ¬(isRootTypeB p cfg.schema = true ∧ isMetadataFieldName name = true) := by
      rintro ⟨ha, hb⟩
      simp [ha, hb] at hmeta
    cases h1 : collectOne cfg (Option.some p) b node with
    | error e => simp [collectSelections, h1] at h
    | ok b₁ =>
      have h2 : collectSelections cfg (Option.some p) b₁ rest = .ok b' := by
        simpa [collectSelections, h1] using h
      have hstep : b.primitiveFields.length ≤ b₁.primitiveFields.length := by
        obtain ⟨dp₁, da₁, dl₁, ds₁, ps₁, dq₁, hc₁⟩ :=
          collectOne_deltas cfg (Option.some p) node b b₁ h1
        have : b₁ = bucketsWithDeltas b dp₁ da₁ dl₁ ds₁ ps₁ dq₁ := by
          rw [hc₁ b] at h1
          injection h1 with h1
          exact h1.symm
        rw [this]
        simp [bucketsWithDeltas]
      have hrest : b₁.primitiveFields.length ≤ b'.primitiveFields.length := by
        obtain ⟨dp₂, da₂, dl₂, ds₂, ps₂, dq₂, hc₂⟩ :=
          collectSelections_deltas cfg (Option.some p) rest b₁ b' h2
        have := collect_result_eq_deltas cfg (Option.some p) rest b₁ b' h2
          dp₂ da₂ dl₂ ds₂ ps₂ dq₂ hc₂
        rw [this]
        simp [bucketsWithDeltas]
      have hm2 : (SelNode.field name Option.none sub) = node ∨
          SelList.Mem (.field name Option.none sub) rest := hm
      rcases hm2 with heq | hmem
      · subst heq
        have hb₁ : b₁ = { b with primitiveFields := b.primitiveFields ++ [name] } := by
          have := h1
          simp [collectOne, hnb, hkb, hm', hlook, hleaf] at this
          exact this.symm
        rw [hb₁] at hrest
        simp at hrest
        omega
      · have := collect_primField_growth cfg p name sub fd hkind hname hmeta
          hlook hleaf rest b₁ b' hmem h2
        omega

/-- Extending the joined list never shortens the intercalation. -/
theorem intercalate_prefix_le (sep : String) (L M : List String) :
    (String.intercalate sep L).length ≤ (String.intercalate sep (L ++ M)).length := by
  cases L with
  | nil =>
    have h0 : String.intercalate sep [] = "" := rfl
    rw [h0]
    exact Nat.zero_le _
  | cons x xs =>
    rw [show (x :: xs) ++ M = x :: (xs ++ M) from rfl]
    rw [intercalate_length, intercalate_length]
    rw [List.map_append, List.sum_append]
    omega

/-- Pointwise length bounds give a bound on the separator-weighted sums. -/
theorem sum_sep_le_of_forall2 (sep : String) (L₁ L₂ : List String)
    (h : List.Forall₂ (fun s₁ s₂ : String => s₁.length ≤ s₂.length) L₁ L₂) :
    (L₁.map (fun s => sep.length + s.length)).sum
      ≤ (L₂.map (fun s => sep.length + s.length)).sum := by
  induction h with
  | nil => exact le_refl 0
  | cons hx ht ih =>
    simp only [List.map_cons, List.sum_cons]
    omega

/-- Pointwise length bounds carry through an intercalation. -/
theorem intercalate_le_of_forall2 (sep : String) (L₁ L₂ : List String)
    (h : List.Forall₂ (fun s₁ s₂ : String => s₁.length ≤ s₂.length) L₁ L₂) :
    (String.intercalate sep L₁).length ≤ (String.intercalate sep L₂).length := by
  cases h with
  | nil => exact le_refl _
  | cons hx ht =>
    rw [intercalate_length, intercalate_length]
    have := sum_sep_le_of_forall2 sep _ _ ht
    omega

/-- A separator-weighted sum splits into separator contributions and content. -/
theorem sum_map_const_add (sep : String) :
    ∀ xs : List String,
      (xs.map (fun s => sep.length + s.length)).sum
        = sep.length * xs.length + (xs.map String.length).sum
  | [] => by simp
  | x :: xs => by
    simp only [List.map_cons, List.sum_cons, List.length_cons, sum_map_const_add sep xs]
    ring

/-- Strictly larger total content with matching list shape strictly lengthens
the intercalation. -/
theorem intercalate_lt_of_sum_lt (sep : String) (L₁ L₂ : List String)
    (hlen : L₁.length = L₂.length)
    (hsum : (L₁.map String.length).sum < (L₂.map String.length).sum) :
    (String.intercalate sep L₁).length < (String.intercalate sep L₂).length := by
  cases L₁ with
  | nil =>
    cases L₂ with
    | nil => simp at hsum
    | cons y ys => simp at hlen
  | cons x xs =>
    cases L₂ with
    | nil => simp at hlen
    | cons y ys =>
      rw [intercalate_length, intercalate_length, sum_map_const_add, sum_map_const_add]
      simp only [List.length_cons] at hlen
      simp only [List.map_cons, List.sum_cons] at hsum
      have hxy : xs.length = ys.length := by omega
      rw [hxy]
      omega

/-- Matching shape, pointwise bounds and a strictly larger total make the
composed part list strictly longer. -/
theorem quoteIfNeeded_lt_of_forall2 (P₁ P₂ : List String)
    (h : List.Forall₂ (fun s₁ s₂ : String => s₁.length ≤ s₂.length) P₁ P₂)
    (hsum : (P₁.map String.length).sum < (P₂.map String.length).sum) :
    (quoteIfNeeded P₁ " & ").length < (quoteIfNeeded P₂ " & ").length := by
  cases h with
  | nil => simp at hsum
  | cons hx ht =>
    rename_i x y xs ys
    cases ht with
    | nil => simpa [quoteIfNeeded] using hsum
    | cons hx2 ht2 =>
      rename_i x2 y2 xs2 ys2
      have e₁ : quoteIfNeeded (x :: x2 :: xs2) " & "
          = "(" ++ String.intercalate " & " (x :: x2 :: xs2) ++ ")" := rfl
      have e₂ : quoteIfNeeded (y :: y2 :: ys2) " & "
          = "(" ++ String.intercalate " & " (y :: y2 :: ys2) ++ ")" := rfl
      rw [e₁, e₂]
      have hlen : (x :: x2 :: xs2).length = (y :: y2 :: ys2).length := by
        have := List.Forall₂.length_eq ht2
        simp [this]
      have := intercalate_lt_of_sum_lt " & " (x :: x2 :: xs2) (y :: y2 :: ys2) hlen hsum
      have hp1 : ("(" : String).length = 1 := rfl
      have hp2 : (")" : String).length = 1 := rfl
      simp only [String.length_append, hp1, hp2]
      omega

/-- Doubling the part list never shortens the composed parts. -/
theorem quoteIfNeeded_double_le (sep : String) (cs : List String) :
    (quoteIfNeeded cs sep).length ≤ (quoteIfNeeded (cs ++ cs) sep).length := by
  cases cs with
  | nil => exact le_refl _
  | cons x xs =>
    cases xs with
    | nil =>
      have e0 : quoteIfNeeded [x] sep = x := rfl
      have e : quoteIfNeeded ([x] ++ [x]) sep
          = "(" ++ String.intercalate sep [x, x] ++ ")" := rfl
      rw [e0, e]
      have h1 : (String.intercalate sep [x, x]).length
          = x.length + (sep.length + x.length) := by
        rw [intercalate_length]
        simp
      have hp1 : ("(" : String).length = 1 := rfl
      have hp2 : (")" : String).length = 1 := rfl
      simp only [String.length_append, hp1, hp2, h1]
      omega
    | cons x2 xs2 =>
      have e₁ : quoteIfNeeded (x :: x2 :: xs2) sep
          = "(" ++ String.intercalate sep (x :: x2 :: xs2) ++ ")" := rfl
      have e₂ : quoteIfNeeded ((x :: x2 :: xs2) ++ (x :: x2 :: xs2)) sep
          = "(" ++ String.intercalate sep ((x :: x2 :: xs2) ++ (x :: x2 :: xs2))
              ++ ")" := rfl
      rw [e₁, e₂]
      have := intercalate_prefix_le sep (x :: x2 :: xs2) (x :: x2 :: xs2)
      have hp1 : ("(" : String).length = 1 := rfl
      have hp2 : (")" : String).length = 1 := rfl
      simp only [String.length_append, hp1, hp2]
      omega

/-- A composed part list over non-empty parts is non-empty. -/
theorem quoteIfNeeded_ne_empty (sep : String) (cs : List String) (hne : cs ≠ [])
    (hall : ∀ c ∈ cs, c ≠ "") :
    quoteIfNeeded cs sep ≠ "" := by
  cases cs with
  | nil => exact absurd rfl hne
  | cons x xs =>
    cases xs with
    | nil => exact hall x (by simp)
    | cons x2 xs2 =>
      have e : quoteIfNeeded (x :: x2 :: xs2) sep
          = "(" ++ String.intercalate sep (x :: x2 :: xs2) ++ ")" := rfl
      rw [e]
      exact append_ne_empty_right _ _ (by decide)

/-- Strings of different lengths differ. -/
theorem ne_of_length_lt (s t : String) (h : s.length < t.length) : s ≠ t := by
  intro he
  rw [he] at h
  omega

/-- A part present with the same non-empty text on both reads pairs up. -/
theorem slotLe_same (o : Option String) (h : ∀ s, o = Option.some s → s ≠ "") :
    SlotLe o o := by
  cases o with
  | none => exact Or.inl ⟨rfl, rfl⟩
  | some s => exact Or.inr ⟨s, s, rfl, rfl, le_refl _, h s rfl, h s rfl⟩

/-- Paired parts contribute comparable lengths. -/
theorem slotLe_strOptLen_le (o₁ o₂ : Option String) (h : SlotLe o₁ o₂) :
    strOptLen o₁ ≤ strOptLen o₂ := by
  rcases h with ⟨h1, h2⟩ | ⟨s₁, s₂, h1, h2, hle, _, _⟩
  · subst h1; subst h2; simp [strOptLen]
  · subst h1; subst h2; simpa [strOptLen] using hle

/-- Pairing every slot pairs the processed part lists and fixes their total
lengths. -/
theorem procSlots_spec (l₁ l₂ : List (Option String))
    (h : List.Forall₂ SlotLe l₁ l₂) :
    List.Forall₂ (fun s₁ s₂ : String => s₁.length ≤ s₂.length)
        (procSlots l₁) (procSlots l₂)
      ∧ ((procSlots l₁).map String.length).sum = (l₁.map strOptLen).sum
      ∧ ((procSlots l₂).map String.length).sum = (l₂.map strOptLen).sum := by
  induction h with
  | nil => exact ⟨.nil, rfl, rfl⟩
  | cons hx ht ih =>
    rename_i o₁ o₂ t₁ t₂
    rcases hx with ⟨h1, h2⟩ | ⟨s₁, s₂, h1, h2, hle, hn₁, hn₂⟩
    · subst h1; subst h2
      simpa [procSlots, strOptLen] using ih
    · subst h1; subst h2
      have e₁ : procSlots (Option.some s₁ :: t₁) = s₁ :: procSlots t₁ := by
        simp [procSlots, hn₁]
      have e₂ : procSlots (Option.some s₂ :: t₂) = s₂ :: procSlots t₂ := by
        simp [procSlots, hn₂]
      rw [e₁, e₂]
      refine ⟨.cons hle ih.1, ?_, ?_⟩
      · simp [strOptLen, ih.2.1]
      · simp [strOptLen, ih.2.2]

/-- The literal-typename part is non-empty whenever present. -/
theorem buildTypeNameField_ne_empty (p : NamedType) (q : Bool) (s : String)
    (h : buildTypeNameField p q = Option.some s) : s ≠ "" := by
  unfold buildTypeNameField at h
  by_cases hk : (p.kind == TypeKind.union || p.kind == TypeKind.interface) = true
  · rw [if_pos hk] at h
    exact absurd h (by simp)
  · rw [if_neg hk] at h
    injection h with h
    rw [← h]
    exact append_ne_empty_right _ _ (by decide)

/-- Doubling a non-empty primitive bucket strictly lengthens the `Pick` part. -/
theorem buildPrimitiveFields_double_lt (pn : String) (dp : List String)
    (hdp : dp ≠ []) :
    ∃ s₁ s₂, buildPrimitiveFields pn dp = Option.some s₁
      ∧ buildPrimitiveFields pn (dp ++ dp) = Option.some s₂
      ∧ s₁.length < s₂.length ∧ s₁ ≠ "" ∧ s₂ ≠ "" := by
  have h1 : dp.isEmpty = false := by
    cases dp with
    | nil => exact absurd rfl hdp
    | cons a l => rfl
  have h2 : (dp ++ dp).isEmpty = false := by
    cases dp with
    | nil => exact absurd rfl hdp
    | cons a l => rfl
  refine ⟨"Pick<" ++ pn ++ ", "
      ++ String.intercalate " | " (dp.map (fun f => "\x27" ++ f ++ "\x27")) ++ ">",
    "Pick<" ++ pn ++ ", "
      ++ String.intercalate " | " ((dp ++ dp).map (fun f => "\x27" ++ f ++ "\x27"))
      ++ ">",
    ?_, ?_, ?_, ?_, ?_⟩
  · simp [buildPrimitiveFields, h1]
  · simp [buildPrimitiveFields, h2]
  · have hmap : (dp ++ dp).map (fun f => "\x27" ++ f ++ "\x27")
        = dp.map (fun f => "\x27" ++ f ++ "\x27")
          ++ dp.map (fun f => "\x27" ++ f ++ "\x27") := List.map_append _ _ _
    rw [hmap]
    have hL : dp.map (fun f => "\x27" ++ f ++ "\x27") ≠ [] := by
      cases dp with
      | nil => exact absurd rfl hdp
      | cons a l => simp
    have := intercalate_double_lt " | " (by decide) _ hL
    simp only [String.length_append]
    omega
  · exact append_ne_empty_right _ _ (by decide)
  · exact append_ne_empty_right _ _ (by decide)

/-- A brace-record part over a doubled entry list pairs with the original
(the shared shape of `buildAliasedPrimitiveFields` and `buildLinkFields`). -/
theorem brace_slot_double_le {α : Type} (f : α → String) (l : List α) :
    SlotLe
      (if l.isEmpty then Option.none else
        Option.some ("\x7b " ++ String.intercalate ", " (l.map f) ++ " \x7d"))
      (if (l ++ l).isEmpty then Option.none else
        Option.some ("\x7b " ++ String.intercalate ", " ((l ++ l).map f)
          ++ " \x7d")) := by
  cases l with
  | nil => exact Or.inl ⟨rfl, rfl⟩
  | cons a t =>
    refine Or.inr ⟨"\x7b " ++ String.intercalate ", " ((a :: t).map f) ++ " \x7d",
      "\x7b " ++ String.intercalate ", " (((a :: t) ++ (a :: t)).map f) ++ " \x7d",
      by simp, by simp, ?_,
      append_ne_empty_right _ _ (by decide),
      append_ne_empty_right _ _ (by decide)⟩
    rw [List.map_append]
    have := intercalate_prefix_le ", " ((a :: t).map f) ((a :: t).map f)
    simp only [String.length_append]
    omega

/-- The fragment-spread part over a doubled name list pairs with the original
when the name conversion never returns an empty string. -/
theorem spread_slot_double_le (cfg : Config) (ds : List String)
    (hconv : ∀ n, cfg.convertName n (Option.some "Fragment") ≠ "") :
    SlotLe (buildFragmentSpread cfg ds) (buildFragmentSpread cfg (ds ++ ds)) := by
  cases ds with
  | nil => exact Or.inl ⟨rfl, rfl⟩
  | cons a t =>
    have hall : ∀ c ∈ (a :: t).map (fun n => cfg.convertName n (Option.some "Fragment")),
        c ≠ "" := by
      intro c hc
      simp only [List.mem_map] at hc
      obtain ⟨n, _, hn⟩ := hc
      rw [← hn]
      exact hconv n
    refine Or.inr
      ⟨quoteIfNeeded ((a :: t).map (fun n => cfg.convertName n (Option.some "Fragment")))
          " & ",
        quoteIfNeeded (((a :: t) ++ (a :: t)).map
          (fun n => cfg.convertName n (Option.some "Fragment"))) " & ",
        by simp [buildFragmentSpread], by simp [buildFragmentSpread], ?_, ?_, ?_⟩
    · rw [List.map_append]
      exact quoteIfNeeded_double_le " & " _
    · exact quoteIfNeeded_ne_empty _ _ (by simp) hall
    · rw [List.map_append]
      refine quoteIfNeeded_ne_empty _ _ (by simp) ?_
      intro c hc
      rcases List.mem_append.mp hc with h | h
      · exact hall c h
      · exact hall c h

/-- One inline-fragment push never shortens the rendered bucket. -/
theorem renderLen_pushInline_le (m : List (String × List String)) (k v : String) :
    renderLen m ≤ renderLen (pushInline m k v) := by
  unfold pushInline
  by_cases h : (m.any fun kv => kv.1 == k) = true
  · rw [if_pos h]
    clear h
    unfold renderLen
    apply intercalate_le_of_forall2
    induction m with
    | nil => exact .nil
    | cons a t iht =>
      simp only [List.map_cons]
      refine .cons ?_ iht
      by_cases hk : (a.1 == k) = true
      · rw [if_pos hk]
        exact intercalate_prefix_le " & " a.2 [v]
      · rw [if_neg hk]
  · rw [if_neg h]
    unfold renderLen
    rw [List.map_append]
    exact intercalate_prefix_le " | " _ _

/-- Replaying pushes never shortens the rendered bucket. -/
theorem renderLen_applyPushes_le :
    ∀ (ps : List (String × String)) (m : List (String × List String)),
      renderLen m ≤ renderLen (applyPushes m ps)
  | [], m => le_refl _
  | p :: ps', m => by
    have h1 := renderLen_pushInline_le m p.1 p.2
    have h2 := renderLen_applyPushes_le ps' (pushInline m p.1 p.2)
    have e : applyPushes m (p :: ps') = applyPushes (pushInline m p.1 p.2) ps' := rfl
    rw [e]
    omega

/-- A non-empty inline-fragment bucket renders to a present part. -/
theorem buildInlineFragments_ne_nil (m : List (String × List String)) (hm : m ≠ []) :
    buildInlineFragments m
      = Option.some ("(" ++ String.intercalate " | "
          (m.map (fun kv => String.intercalate " & " kv.2)) ++ ")") := by
  cases m with
  | nil => exact absurd rfl hm
  | cons a t => simp [buildInlineFragments]

/-- Replaying the inline-fragment pushes a second time pairs the inline part
with the first read's. -/
theorem inline_slot_double_le (ps : List (String × String)) :
    SlotLe (buildInlineFragments (applyPushes [] ps))
      (buildInlineFragments (applyPushes (applyPushes [] ps) ps)) := by
  cases ps with
  | nil => exact Or.inl ⟨rfl, rfl⟩
  | cons p ps' =>
    have h1 : applyPushes [] (p :: ps') ≠ [] := applyPushes_ne_nil _ _ (by simp)
    have h2 : applyPushes (applyPushes [] (p :: ps')) (p :: ps') ≠ [] :=
      applyPushes_ne_nil _ _ (by simp)
    rw [buildInlineFragments_ne_nil _ h1, buildInlineFragments_ne_nil _ h2]
    refine Or.inr ⟨_, _, rfl, rfl, ?_,
      append_ne_empty_right _ _ (by decide),
      append_ne_empty_right _ _ (by decide)⟩
    have := renderLen_applyPushes_le (p :: ps') (applyPushes [] (p :: ps'))
    unfold renderLen at this
    simp only [String.length_append]
    omega

/-- The getter tail in slot form: the six composed parts in source order,
processed and merged. -/
theorem buildString_eq_procSlots (cfg : Config) (p : NamedType) (b : Buckets) :
    buildString cfg p b
      = quoteIfNeeded (procSlots
          [ (if cfg.addTypename || b.queriedForTypename then
               buildTypeNameField p b.queriedForTypename else Option.none),
            buildPrimitiveFields (cfg.convertName p.name Option.none)
              b.primitiveFields,
            buildAliasedPrimitiveFields (cfg.convertName p.name Option.none)
              b.primitiveAliasedFields,
            buildLinkFields b.linksFields,
            buildFragmentSpread cfg b.fragmentSpreads,
            buildInlineFragments b.inlineFragments ]) " & " := rfl

/-- Re-running the collection deltas over the first read's buckets strictly
lengthens the composed string, provided the deltas contain a primitive field
and fragment-name conversion never returns the empty string. -/
theorem buildString_double_lt (cfg : Config) (p : NamedType)
    (dp : List String) (da : List AliasedField) (dl : List LinkField)
    (ds : List String) (ps : List (String × String)) (dq : Bool)
    (hdp : dp ≠ [])
    (hconv : ∀ n, cfg.convertName n (Option.some "Fragment") ≠ "") :
    (buildString cfg p (bucketsWithDeltas emptyBuckets dp da dl ds ps dq)).length
      < (buildString cfg p (bucketsWithDeltas
          (bucketsWithDeltas emptyBuckets dp da dl ds ps dq)
          dp da dl ds ps dq)).length := by
  have e₁ : bucketsWithDeltas emptyBuckets dp da dl ds ps dq
      = { primitiveFields := dp, primitiveAliasedFields := da, linksFields := dl,
          fragmentSpreads := ds, inlineFragments := applyPushes [] ps,
          queriedForTypename := dq } := by
    simp [bucketsWithDeltas, emptyBuckets]
  rw [e₁]
  have e₂ : bucketsWithDeltas
      { primitiveFields := dp, primitiveAliasedFields := da, linksFields := dl,
        fragmentSpreads := ds, inlineFragments := applyPushes [] ps,
        queriedForTypename := dq } dp da dl ds ps dq
      = { primitiveFields := dp ++ dp, primitiveAliasedFields := da ++ da,
          linksFields := dl ++ dl, fragmentSpreads := ds ++ ds,
          inlineFragments := applyPushes (applyPushes [] ps) ps,
          queriedForTypename := dq } := by
    simp [bucketsWithDeltas]
  rw [e₂]
  rw [buildString_eq_procSlots, buildString_eq_procSlots]
  dsimp only
  obtain ⟨s₁, s₂, hs₁, hs₂, hlt, hn₁, hn₂⟩ :=
    buildPrimitiveFields_double_lt (cfg.convertName p.name Option.none) dp hdp
  have slot1 : SlotLe
      (if cfg.addTypename || dq then buildTypeNameField p dq else Option.none)
      (if cfg.addTypename || dq then buildTypeNameField p dq else Option.none) := by
    refine slotLe_same _ ?_
    intro s hs
    by_cases hc : (cfg.addTypename || dq) = true
    · rw [if_pos hc] at hs
      exact buildTypeNameField_ne_empty p dq s hs
    · rw [if_neg hc] at hs
      exact absurd hs (by simp)
  have slot2 : SlotLe
      (buildPrimitiveFields (cfg.convertName p.name Option.none) dp)
      (buildPrimitiveFields (cfg.convertName p.name Option.none) (dp ++ dp)) :=
    Or.inr ⟨s₁, s₂, hs₁, hs₂, Nat.le_of_lt hlt, hn₁, hn₂⟩
  have slot3 : SlotLe
      (buildAliasedPrimitiveFields (cfg.convertName p.name Option.none) da)
      (buildAliasedPrimitiveFields (cfg.convertName p.name Option.none) (da ++ da)) :=
    brace_slot_double_le (fun af : AliasedField =>
      af.aliasValue ++ ": " ++ cfg.convertName p.name Option.none
        ++ "[\x27" ++ af.fieldName ++ "\x27]") da
  have slot4 : SlotLe (buildLinkFields dl) (buildLinkFields (dl ++ dl)) :=
    brace_slot_double_le (fun f : LinkField => linkFieldKey f ++ ": " ++ f.selectionSet) dl
  have slot5 := spread_slot_double_le cfg ds hconv
  have slot6 := inline_slot_double_le ps
  have hfa : List.Forall₂ SlotLe
      [ (if cfg.addTypename || dq then buildTypeNameField p dq else Option.none),
        buildPrimitiveFields (cfg.convertName p.name Option.none) dp,
        buildAliasedPrimitiveFields (cfg.convertName p.name Option.none) da,
        buildLinkFields dl,
        buildFragmentSpread cfg ds,
        buildInlineFragments (applyPushes [] ps) ]
      [ (if cfg.addTypename || dq then buildTypeNameField p dq else Option.none),
        buildPrimitiveFields (cfg.convertName p.name Option.none) (dp ++ dp),
        buildAliasedPrimitiveFields (cfg.convertName p.name Option.none) (da ++ da),
        buildLinkFields (dl ++ dl),
        buildFragmentSpread cfg (ds ++ ds),
        buildInlineFragments (applyPushes (applyPushes [] ps) ps) ] :=
    .cons slot1 (.cons slot2 (.cons slot3 (.cons slot4 (.cons slot5
      (.cons slot6 .nil)))))
  obtain ⟨hf2, hsum₁, hsum₂⟩ := procSlots_spec _ _ hfa
  apply quoteIfNeeded_lt_of_forall2 _ _ hf2
  rw [hsum₁, hsum₂]
  have t1 := slotLe_strOptLen_le _ _ slot1
  have t3 := slotLe_strOptLen_le _ _ slot3
  have t4 := slotLe_strOptLen_le _ _ slot4
  have t5 := slotLe_strOptLen_le _ _ slot5
  have t6 := slotLe_strOptLen_le _ _ slot6
  have t2 : strOptLen (buildPrimitiveFields (cfg.convertName p.name Option.none) dp)
      < strOptLen (buildPrimitiveFields (cfg.convertName p.name Option.none)
          (dp ++ dp)) := by
    rw [hs₁, hs₂]
    simpa [strOptLen] using hlt
  simp only [List.map_cons, List.map_nil, List.sum_cons, List.sum_nil]
  omega

/-- C9 (amended): reading the `string` getter twice is NOT idempotent in
general — the getter re-collects the selections into the instance's already
populated buckets, so whenever the selection set contains a plain leaf field
that resolves on an object or interface parent (and fragment-name conversion
never yields an empty string), the second read of the same instance succeeds
and returns a strictly longer, hence different, text. -/
theorem c9_second_read_differs (cfg : Config) (p : NamedType) (name : String)
    (sub : SelOpt) (fd : FieldDef) (sels : SelList) (t1 : String) (b1 : Buckets)
    (hmem : SelList.Mem (.field name Option.none sub) sels)
    (hname : name ≠ "__typename")
    (hkind : p.kind = .object ∨ p.kind = .interface)
    (hmeta : (isRootTypeB p cfg.schema && isMetadataFieldName name) = false)
    (hlook : lookupField p name = Option.some fd)
    (hleaf : isLeafBase cfg (baseNameOf fd.type) = true)
    (hconv : ∀ n, cfg.convertName n (Option.some "Fragment") ≠ "")
    (h1 : stringGetList cfg (Option.some p) sels emptyBuckets = .ok (t1, b1)) :
    ∃ t2 b2, stringGetList cfg (Option.some p) sels b1 = .ok (t2, b2)
      ∧ t1.length < t2.length ∧ t1 ≠ t2 := by
  cases sels with
  | nil => exact absurd hmem (by simp [SelList.Mem])
  | cons hd tl =>
    rw [stringGetList_cons_eq] at h1
    cases hcol : collectSelections cfg (Option.some p) emptyBuckets (.cons hd tl) with
    | error e =>
      rw [hcol] at h1
      exact absurd h1 (by simp)
    | ok b₀ =>
      rw [hcol] at h1
      have h1' : (Except.ok (buildString cfg p b₀, b₀)
            : Except JsError (String × Buckets))
          = .ok (t1, b1) := h1
      injection h1' with h
      have ht : buildString cfg p b₀ = t1 := congrArg Prod.fst h
      have hb : b₀ = b1 := congrArg Prod.snd h
      subst hb
      subst ht
      obtain ⟨dp, da, dl, ds, ps, dq, hc⟩ :=
        collectSelections_deltas cfg (Option.some p) (.cons hd tl) emptyBuckets b₀ hcol
      have hb₀ : b₀ = bucketsWithDeltas emptyBuckets dp da dl ds ps dq :=
        collect_result_eq_deltas cfg (Option.some p) (.cons hd tl) emptyBuckets b₀
          hcol dp da dl ds ps dq hc
      have hgrow := collect_primField_growth cfg p name sub fd hkind hname hmeta
        hlook hleaf (.cons hd tl) emptyBuckets b₀ hmem hcol
      have hdp : dp ≠ [] := by
        intro hdpnil
        rw [hb₀, hdpnil] at hgrow
        simp [bucketsWithDeltas, emptyBuckets] at hgrow
      have hc2 := hc b₀
      refine ⟨buildString cfg p (bucketsWithDeltas b₀ dp da dl ds ps dq),
        bucketsWithDeltas b₀ dp da dl ds ps dq, ?_, ?_, ?_⟩
      · rw [stringGetList_cons_eq, hc2]
      · rw [hb₀]
        exact buildString_double_lt cfg p dp da dl ds ps dq hdp hconv
      · rw [hb₀]
        exact ne_of_length_lt _ _
          (buildString_double_lt cfg p dp da dl ds ps dq hdp hconv)

/-- C9 witness: the amended statement evaluated at `Person { name }`
with the sample configuration. -/
theorem c9_second_read_differs_witness :
    SelList.Mem (.field "name" Option.none .none) selsC9
    ∧ lookupField personT "name" = Option.some ⟨.named "String"⟩
    ∧ ∃ t2 b2,
        stringGetList cfgSample (Option.some personT) selsC9
          { emptyBuckets with primitiveFields := ["name"] } = .ok (t2, b2)
        ∧ ("Pick<Person, \x27name\x27>" : String).length < t2.length
        ∧ ("Pick<Person, \x27name\x27>" : String) ≠ t2 :=
  ⟨Or.inl rfl, rfl,
    c9_second_read_differs cfgSample personT "name" .none ⟨.named "String"⟩ selsC9
      "Pick<Person, \x27name\x27>" { emptyBuckets with primitiveFields := ["name"] }
      (Or.inl rfl) (by decide) (Or.inl rfl) rfl rfl rfl
      (fun n => append_ne_empty_right n "Fragment" (by decide)) rfl⟩


/-- C9 counterexample: the claim as stated is false at a concrete input —
the first read of `{ name }` on `Person` returns a `Pick` listing `name`
once; the second read of the same instance returns a different text listing
`name` twice (the getter re-collected into the populated buckets). -/
theorem c9_counterexample :
    stringGetList cfgSample (Option.some personT) selsC9 emptyBuckets
      = .ok ("Pick<Person, \x27name\x27>",
          { emptyBuckets with primitiveFields := ["name"] })
    ∧ stringGetList cfgSample (Option.some personT) selsC9
        { emptyBuckets with primitiveFields := ["name"] }
      = .ok ("Pick<Person, \x27name\x27 | \x27name\x27>",
          { emptyBuckets with primitiveFields := ["name", "name"] })
    ∧ ("Pick<Person, \x27name\x27>" : String)
        ≠ "Pick<Person, \x27name\x27 | \x27name\x27>" :=
  ⟨rfl, rfl, by decide⟩

/-! ## C10 — root-level accumulator dereference -/

/-- C10: at a root-level invocation (no `appendTo`), a scalar/leaf field or a
fragment spread processed before any object-typed field dereferences the
still-`undefined` accumulator (`appendTo.fields.push` /
`appendTo.fragmentsUsed.push`) and the run fails; the wrapping `Result`
model is only created upon the first object-typed field, after which the
entry is recorded on it. -/
theorem c10_root_accumulator_crash (schema : Schema) (p : NamedType)
    (pm : List (String × String)) (name : String) (aliasV : Option String)
    (sub : SelOpt) (rest : SelList) (fd : FieldDef) (fname : String)
    (rest2 : SelList) (name2 : String) (alias2 : Option String) (fd2 : FieldDef)
    (hlook : getFieldDef (Option.some p) name = Option.some fd)
    (hleaf : (schema.getType (baseNameOf fd.type)).map NamedType.kind
        ≠ Option.some TypeKind.object)
    (hlook2 : getFieldDef (Option.some p) name2 = Option.some fd2)
    (hobj : (schema.getType (baseNameOf fd2.type)).map NamedType.kind
        = Option.some TypeKind.object) :
    buildInnerModelsArray schema (Option.some p)
        (.some (.cons (.field name aliasV sub) rest)) pm Option.none []
      = .error appendToDerefError
    ∧ buildInnerModelsArray schema (Option.some p)
        (.some (.cons (.fragmentSpread fname) rest2)) pm Option.none []
      = .error appendToDerefError
    ∧ buildInnerModelsArray schema (Option.some p)
        (.some (.cons (.field name2 alias2 .none) .nil)) pm Option.none []
      = .ok [{ name := pascalCase name2 },
             { resultModel with fields :=
                [⟨propertyNameOf alias2 name2,
                  pascalCase name2, isArray fd2.type, isRequired fd2.type⟩] }] := by
  have hl : ((schema.getType (baseNameOf fd.type)).map NamedType.kind
      == Option.some TypeKind.object) = false := by simp [hleaf]
  have hb : ((schema.getType (baseNameOf fd2.type)).map NamedType.kind
      == Option.some TypeKind.object) = true := by simp [hobj]
  have halloc : handleNameDuplications (pascalCase name2) [] = pascalCase name2 := rfl
  refine ⟨?_, ?_, ?_⟩
  · simp [buildInnerModelsArray, biLoop, hlook, hl]
  · simp [buildInnerModelsArray, biLoop]
  · simp [buildInnerModelsArray, biLoop, hlook2, hb, halloc, modifyAt, resultModel, pushFieldEntry, propertyNameOf]

/-- C10 witness: on the sample schema's root, `{ animal }` (a union leaf
entry) and `{ ...f }` crash with the accumulator `TypeError`, while `{ pet }`
creates `Result` and records `pet` on it. -/
theorem c10_root_accumulator_crash_witness :
    getFieldDef (Option.some queryT) "animal" = Option.some ⟨.named "Animal"⟩
    ∧ getFieldDef (Option.some queryT) "pet" = Option.some ⟨.named "Pet"⟩
    ∧ buildInnerModelsArray sampleSchema (Option.some queryT)
        (.some (.cons (.field "animal" Option.none .none) .nil)) [] Option.none []
      = .error appendToDerefError
    ∧ buildInnerModelsArray sampleSchema (Option.some queryT)
        (.some (.cons (.fragmentSpread "f") .nil)) [] Option.none []
      = .error appendToDerefError
    ∧ buildInnerModelsArray sampleSchema (Option.some queryT)
        (.some (.cons (.field "pet" Option.none .none) .nil)) [] Option.none []
      = .ok [{ name := "Pet" },
             { resultModel with fields := [⟨"pet", "Pet", false, false⟩] }] := by
  have h := c10_root_accumulator_crash sampleSchema queryT [] "animal"
    Option.none .none .nil ⟨.named "Animal"⟩ "f" .nil "pet" Option.none
    ⟨.named "Pet"⟩ rfl (by decide) rfl rfl
  exact ⟨rfl, rfl, h.1, h.2.1, h.2.2⟩

/-! ## C3 — name uniqueness -/

/-- C3 counterexample: the claim as stated is false — the run
`{ pet { ... on Cat { meow } ... on Cat { meow } } }` on the sample schema
produces two declarations both named `CatInlineFragment` (inline-fragment
models are named `typeCondition + 'InlineFragment'` with no deduplication),
so the output's name list is not duplicate-free. -/
theorem c3_counterexample :
    (buildInnerModelsArray sampleSchema (Option.some queryT) selsC3 []
        Option.none []).map (fun r => r.map Model.name)
      = .ok ["Pet", "CatInlineFragment", "CatInlineFragment", "Result"]
    ∧ ¬ (["Pet", "CatInlineFragment", "CatInlineFragment", "Result"] : List String).Nodup :=
  ⟨rfl, by decide⟩

/-- Digit rendering `Nat.digitChar` is injective below 10. -/
theorem digitChar_inj_lt :
    ∀ x < 10, ∀ y < 10, Nat.digitChar x = Nat.digitChar y → x = y := by decide

/-- Mapping `Nat.digitChar` over digit lists (all entries `< 10`) is
injective. -/
theorem map_digitChar_inj :
    ∀ (l1 l2 : List Nat), (∀ x ∈ l1, x < 10) → (∀ x ∈ l2, x < 10) →
      l1.map Nat.digitChar = l2.map Nat.digitChar → l1 = l2
  | [], [], _, _, _ => rfl
  | [], _ :: _, _, _, h => by simp at h
  | _ :: _, [], _, _, h => by simp at h
  | a :: l1, b :: l2, h1, h2, h => by
    simp only [List.map_cons, List.cons.injEq] at h
    have hd := digitChar_inj_lt a (h1 a (by simp)) b (h2 b (by simp)) h.1
    have tl := map_digitChar_inj l1 l2 (fun x hx => h1 x (by simp [hx]))
      (fun x hx => h2 x (by simp [hx])) h.2
    rw [hd, tl]

/-- The decimal disambiguator rendering is injective. -/
theorem natDisambig_injective : Function.Injective natDisambig := by
  intro a b h
  unfold natDisambig at h
  have hdata := congrArg String.data h
  simp only [List.asString] at hdata
  have hrev : (Nat.digits 10 a).reverse = (Nat.digits 10 b).reverse :=
    map_digitChar_inj _ _
      (fun x hx => Nat.digits_lt_base (by norm_num) (List.mem_reverse.mp hx))
      (fun x hx => Nat.digits_lt_base (by norm_num) (List.mem_reverse.mp hx))
      hdata
  have hdig : Nat.digits 10 a = Nat.digits 10 b := by
    have := congrArg List.reverse hrev
    simpa using this
  calc a = Nat.ofDigits 10 (Nat.digits 10 a) := (Nat.ofDigits_digits 10 a).symm
    _ = Nat.ofDigits 10 (Nat.digits 10 b) := by rw [hdig]
    _ = b := Nat.ofDigits_digits 10 b

/-- Appending distinct disambiguators to the same base yields distinct
candidate names. -/
theorem candidate_injective (name : String) :
    Function.Injective (fun i => name ++ natDisambig (i + 2)) := by
  intro i j h
  simp only at h
  have hdata := congrArg String.data h
  simp only [String.data_append] at hdata
  have := List.append_cancel_left hdata
  have heq : natDisambig (i + 2) = natDisambig (j + 2) := String.ext this
  have := natDisambig_injective heq
  omega

/-- Pigeonhole: among `used.length + 1` distinct candidate names, one is not
in `used`. -/
theorem exists_fresh_candidate (name : String) (used : List String) :
    ∃ c ∈ (List.range (used.length + 1)).map (fun i => name ++ natDisambig (i + 2)),
      c ∉ used := by
  by_contra hall
  push_neg at hall
  have hnd : ((List.range (used.length + 1)).map
      (fun i => name ++ natDisambig (i + 2))).Nodup :=
    (List.nodup_range _).map (candidate_injective name)
  have hsub : ((List.range (used.length + 1)).map
      (fun i => name ++ natDisambig (i + 2))).toFinset ⊆ used.toFinset := by
    intro x hx
    rw [List.mem_toFinset] at hx ⊢
    exact hall x hx
  have hc1 := List.toFinset_card_of_nodup hnd
  have hc2 : used.toFinset.card ≤ used.length := List.toFinset_card_le used
  have hle := Finset.card_le_card hsub
  simp only [List.length_map, List.length_range] at hc1
  omega

/-- C3 (amended): uniqueness holds only for the names produced by the
duplicate-handling allocator — `handleNameDuplications` always returns a name
distinct from every declaration name existing at allocation time.
(Declarations synthesized for inline fragments and the wrapping `Result`
declaration bypass the allocator and may collide; see the counterexample.) -/
theorem c3_allocator_name_fresh (name : String) (result : List Model) :
    handleNameDuplications name result ∉ result.map Model.name := by
  unfold handleNameDuplications
  by_cases h : (result.map Model.name).contains name
  · simp only [h, if_true]
    obtain ⟨c, hc_mem, hc_not⟩ := exists_fresh_candidate name (result.map Model.name)
    have hfind : (((List.range ((result.map Model.name).length + 1)).map
        (fun i => name ++ natDisambig (i + 2))).find?
        (fun c => !((result.map Model.name).contains c))).isSome := by
      rw [List.find?_isSome]
      exact ⟨c, hc_mem, by simp [hc_not]⟩
    obtain ⟨c', hc'⟩ := Option.isSome_iff_exists.mp hfind
    rw [hc']
    have hprop := List.find?_some hc'
    simpa using hprop
  · simp only [h, if_false]
    simpa using h

/-! ## C2 — link fields are name references into the flat collection -/

/-- Relation `Grows` is reflexive. -/
theorem grows_refl (r : List Model) : Grows r r :=
  fun _ m h => ⟨m, h, rfl, fun _ hf => hf⟩

/-- Relation `Grows` is transitive. -/
theorem grows_trans {a b c : List Model} (h1 : Grows a b) (h2 : Grows b c) :
    Grows a c := by
  intro i m hm
  obtain ⟨m1, hb, hn1, hf1⟩ := h1 i m hm
  obtain ⟨m2, hc, hn2, hf2⟩ := h2 i m1 hb
  exact ⟨m2, hc, by rw [hn2, hn1], fun f hf => hf2 f (hf1 f hf)⟩

/-- Appending new declarations preserves the existing ones. -/
theorem grows_append (r ext : List Model) : Grows r (r ++ ext) := by
  intro i m hm
  have hlt : i < r.length := by
    by_contra hge
    rw [List.getElem?_eq_none (by omega)] at hm
    cases hm
  exact ⟨m, by rw [List.getElem?_append_left hlt]; exact hm, rfl, fun _ hf => hf⟩

/-- Index-wise description of `modifyAt`. -/
theorem modifyAt_getElem? (f : Model → Model) :
    ∀ (r : List Model) (i j : Nat),
      (modifyAt r i f)[j]? = if j = i then (r[i]?).map f else r[j]?
  | [], i, j => by simp [modifyAt]
  | m :: rest, 0, 0 => by simp [modifyAt]
  | m :: rest, 0, j + 1 => by simp [modifyAt]
  | m :: rest, i + 1, 0 => by simp [modifyAt]
  | m :: rest, i + 1, j + 1 => by
    simp only [modifyAt, List.getElem?_cons_succ]
    rw [modifyAt_getElem? f rest i j]
    by_cases hji : j = i <;> simp [hji]

/-- Pushing onto one declaration (keeping its name and existing fields)
preserves the collection. -/
theorem grows_modifyAt (r : List Model) (i : Nat) (f : Model → Model)
    (hname : ∀ m, (f m).name = m.name)
    (hfields : ∀ m x, x ∈ m.fields → x ∈ (f m).fields) :
    Grows r (modifyAt r i f) := by
  intro j m hm
  rw [modifyAt_getElem?]
  by_cases hji : j = i
  · subst hji
    refine ⟨f m, ?_, hname m, fun x hx => hfields m x hx⟩
    simp [hm]
  · rw [if_neg hji]
    exact ⟨m, hm, rfl, fun _ hf => hf⟩

mutual
/-- The selection loop only grows the declaration collection. -/
theorem biLoop_grows (schema : Schema) :
    ∀ (sels : SelList) (root : Option NamedType) (pm : List (String × String))
      (app : Option Nat) (res : List Model) (app' : Option Nat) (res' : List Model),
      biLoop schema root sels pm app res = .ok (app', res') → Grows res res'
  | .nil, root, pm, app, res, app', res', h => by
    simp only [biLoop, Except.ok.injEq, Prod.mk.injEq] at h
    rw [← h.2]
    exact grows_refl res
  | .cons node rest, root, pm, app, res, app', res', h => by
    cases node with
    | field fieldName aliasValue sub =>
      simp only [biLoop] at h
      split at h
      · exact Except.noConfusion h
      · split at h
        · split at h
          · exact Except.noConfusion h
          · rename_i fd hkd result2 hrec
            have g1 : Grows res result2 :=
              grows_trans (grows_append res _)
                (buildInner_grows schema sub _ pm _ _ result2 hrec)
            split at h
            · rename_i i
              have hrest := biLoop_grows schema rest root pm _ _ app' res' h
              refine grows_trans g1 (grows_trans ?_ hrest)
              exact grows_modifyAt _ _ _ (fun _ => rfl)
                (fun _ _ hx => List.mem_append_left _ hx)
            · have hrest := biLoop_grows schema rest root pm _ _ app' res' h
              refine grows_trans g1 (grows_trans (grows_append result2 [resultModel])
                (grows_trans ?_ hrest))
              exact grows_modifyAt _ _ _ (fun _ => rfl)
                (fun _ _ hx => List.mem_append_left _ hx)
        · split at h
          · exact Except.noConfusion h
          · rename_i i
            have hrest := biLoop_grows schema rest root pm _ _ app' res' h
            refine grows_trans ?_ hrest
            exact grows_modifyAt _ _ _ (fun _ => rfl)
              (fun _ _ hx => List.mem_append_left _ hx)
    | fragmentSpread fragName =>
      simp only [biLoop] at h
      split at h
      · exact Except.noConfusion h
      · rename_i i
        have hrest := biLoop_grows schema rest root pm _ _ app' res' h
        refine grows_trans ?_ hrest
        exact grows_modifyAt _ _ _ (fun _ => rfl) (fun _ _ hx => hx)
    | inlineFragment cond isel =>
      simp only [biLoop] at h
      split at h
      · exact Except.noConfusion h
      · rename_i i
        split at h
        · exact Except.noConfusion h
        · rename_i a result3 hrec
          have hrest := biLoop_grows schema rest root pm _ _ app' res' h
          have hinner := biLoop_grows schema isel _ pm _ _ a result3 hrec
          refine grows_trans ?_ (grows_trans (grows_append _ _)
            (grows_trans hinner hrest))
          exact grows_modifyAt _ _ _ (fun _ => rfl) (fun _ _ hx => hx)

/-- The builder only grows the declaration collection. -/
theorem buildInner_grows (schema : Schema) :
    ∀ (selOpt : SelOpt) (root : Option NamedType) (pm : List (String × String))
      (app : Option Nat) (res : List Model) (res' : List Model),
      buildInnerModelsArray schema root selOpt pm app res = .ok res' → Grows res res'
  | .none, root, pm, app, res, res', h => by
    simp only [buildInnerModelsArray, Except.ok.injEq] at h
    rw [← h]
    exact grows_refl res
  | .some l, root, pm, app, res, res', h => by
    simp only [buildInnerModelsArray] at h
    split at h
    · exact Except.noConfusion h
    · rename_i a r hb
      simp only [Except.ok.injEq] at h
      rw [← h]
      exact biLoop_grows schema l root pm app res a r hb
end

/-- C2: whenever the builder processes an object-typed (link) field, the
generated record entry maps the alias-or-name to the *name* of the
sub-declaration (`MField.type` is a plain name — `Model` cannot embed another
`Model` by value), the field's list/required modifiers are taken from the
field's schema type, and a declaration bearing that name is an element of the
same run's flat output collection. -/
theorem c2_link_field_named_reference (schema : Schema) (root : Option NamedType)
    (pm : List (String × String)) (name : String) (aliasV : Option String)
    (sub : SelOpt) (rest : SelList) (appendTo : Option Nat) (res0 : List Model)
    (fd : FieldDef) (final : List Model)
    (hlook : getFieldDef root name = Option.some fd)
    (hobj : ((schema.getType (baseNameOf fd.type)).map NamedType.kind
        == Option.some TypeKind.object) = true)
    (happ : ∀ i, appendTo = Option.some i → i < res0.length)
    (hrun : buildInnerModelsArray schema root
        (.some (.cons (.field name aliasV sub) rest)) pm appendTo res0 = .ok final) :
    (∃ (j : Nat) (mj : Model), final[j]? = Option.some mj
        ∧ mj.name = handleNameDuplications (pascalCase name) res0)
    ∧ (∃ (k : Nat) (mk : Model), final[k]? = Option.some mk
        ∧ (⟨propertyNameOf aliasV name, handleNameDuplications (pascalCase name) res0,
            isArray fd.type, isRequired fd.type⟩ : MField) ∈ mk.fields) := by
  simp only [buildInnerModelsArray] at hrun
  cases hb : biLoop schema root (.cons (.field name aliasV sub) rest) pm appendTo res0 with
  | error e =>
    rw [hb] at hrun
    exact Except.noConfusion hrun
  | ok pr =>
    obtain ⟨a, r⟩ := pr
    rw [hb] at hrun
    simp only [Except.ok.injEq] at hrun
    subst hrun
    simp only [biLoop, hlook, hobj, if_true] at hb
    split at hb
    · exact Except.noConfusion hb
    · rename_i result2 hrec
      have hG2 : Grows
          (res0 ++ [{ name := handleNameDuplications (pascalCase name) res0 }])
          result2 :=
        buildInner_grows schema sub _ pm _ _ result2 hrec
      have hM := List.getElem?_concat_length res0
        { name := handleNameDuplications (pascalCase name) res0 }
      split at hb
      · rename_i i
        have hi : i < res0.length := happ i rfl
        have hG3 : Grows result2 (modifyAt result2 i
            (pushFieldEntry (propertyNameOf aliasV name)
              (handleNameDuplications (pascalCase name) res0) fd.type)) :=
          grows_modifyAt _ _ _ (fun _ => rfl)
            (fun _ _ hx => List.mem_append_left _ hx)
        have hG4 : Grows (modifyAt result2 i
            (pushFieldEntry (propertyNameOf aliasV name)
              (handleNameDuplications (pascalCase name) res0) fd.type)) r :=
          biLoop_grows schema rest root pm _ _ a r hb
        constructor
        · obtain ⟨m2, hm2, hn2, _⟩ := hG2 res0.length _ hM
          obtain ⟨m3, hm3, hn3, _⟩ := hG3 res0.length m2 hm2
          obtain ⟨m4, hm4, hn4, _⟩ := hG4 res0.length m3 hm3
          exact ⟨res0.length, m4, hm4, by rw [hn4, hn3, hn2]⟩
        · have hres0i := List.getElem?_eq_getElem hi
          obtain ⟨n1, hn1, _, _⟩ := grows_append res0
            [{ name := handleNameDuplications (pascalCase name) res0 }] i _ hres0i
          obtain ⟨n2, hn2, _, _⟩ := hG2 i n1 hn1
          have hmod : (modifyAt result2 i
              (pushFieldEntry (propertyNameOf aliasV name)
                (handleNameDuplications (pascalCase name) res0) fd.type))[i]?
              = Option.some (pushFieldEntry (propertyNameOf aliasV name)
                  (handleNameDuplications (pascalCase name) res0) fd.type n2) := by
            rw [modifyAt_getElem?]
            simp [hn2]
          have hentry : (⟨propertyNameOf aliasV name,
              handleNameDuplications (pascalCase name) res0,
              isArray fd.type, isRequired fd.type⟩ : MField)
              ∈ (pushFieldEntry (propertyNameOf aliasV name)
                  (handleNameDuplications (pascalCase name) res0) fd.type n2).fields := by
            simp [pushFieldEntry]
          obtain ⟨n3, hn3, _, hf3⟩ := hG4 i _ hmod
          exact ⟨i, n3, hn3, hf3 _ hentry⟩
      · have hG3a : Grows result2 (result2 ++ [resultModel]) := grows_append _ _
        have hG3 : Grows (result2 ++ [resultModel])
            (modifyAt (result2 ++ [resultModel]) result2.length
              (pushFieldEntry (propertyNameOf aliasV name)
                (handleNameDuplications (pascalCase name) res0) fd.type)) :=
          grows_modifyAt _ _ _ (fun _ => rfl)
            (fun _ _ hx => List.mem_append_left _ hx)
        have hG4 : Grows (modifyAt (result2 ++ [resultModel]) result2.length
            (pushFieldEntry (propertyNameOf aliasV name)
              (handleNameDuplications (pascalCase name) res0) fd.type)) r :=
          biLoop_grows schema rest root pm _ _ a r hb
        constructor
        · obtain ⟨m2, hm2, hn2, _⟩ := hG2 res0.length _ hM
          obtain ⟨m25, hm25, hn25, _⟩ := hG3a res0.length m2 hm2
          obtain ⟨m3, hm3, hn3, _⟩ := hG3 res0.length m25 hm25
          obtain ⟨m4, hm4, hn4, _⟩ := hG4 res0.length m3 hm3
          exact ⟨res0.length, m4, hm4, by rw [hn4, hn3, hn25, hn2]⟩
        · have htgt := List.getElem?_concat_length result2 resultModel
          have hmod : (modifyAt (result2 ++ [resultModel]) result2.length
              (pushFieldEntry (propertyNameOf aliasV name)
                (handleNameDuplications (pascalCase name) res0) fd.type))[result2.length]?
              = Option.some (pushFieldEntry (propertyNameOf aliasV name)
                  (handleNameDuplications (pascalCase name) res0) fd.type resultModel) := by
            rw [modifyAt_getElem?]
            simp [htgt]
          have hentry : (⟨propertyNameOf aliasV name,
              handleNameDuplications (pascalCase name) res0,
              isArray fd.type, isRequired fd.type⟩ : MField)
              ∈ (pushFieldEntry (propertyNameOf aliasV name)
                  (handleNameDuplications (pascalCase name) res0) fd.type resultModel).fields := by
            simp [pushFieldEntry, resultModel]
          obtain ⟨n3, hn3, _, hf3⟩ := hG4 result2.length _ hmod
          exact ⟨result2.length, n3, hn3, hf3 _ hentry⟩

/-- C2 witness: the root run `{ pet { } }` on the sample schema records
`pet ↦ Pet` on `Result` and the declaration named `Pet` is in the output. -/
theorem c2_link_field_named_reference_witness :
    getFieldDef (Option.some queryT) "pet" = Option.some ⟨.named "Pet"⟩
    ∧ ((∃ (j : Nat) (mj : Model), ([{ name := "Pet" },
          { resultModel with fields := [⟨"pet", "Pet", false, false⟩] }] : List Model)[j]?
            = Option.some mj ∧ mj.name = handleNameDuplications (pascalCase "pet") [])
      ∧ (∃ (k : Nat) (mk : Model), ([{ name := "Pet" },
          { resultModel with fields := [⟨"pet", "Pet", false, false⟩] }] : List Model)[k]?
            = Option.some mk
          ∧ (⟨propertyNameOf Option.none "pet", handleNameDuplications (pascalCase "pet") [],
              isArray (.named "Pet"), isRequired (.named "Pet")⟩ : MField) ∈ mk.fields)) :=
  ⟨rfl,
    c2_link_field_named_reference sampleSchema (Option.some queryT) [] "pet"
      Option.none .none .nil Option.none [] ⟨.named "Pet"⟩
      [{ name := "Pet" }, { resultModel with fields := [⟨"pet", "Pet", false, false⟩] }]
      rfl rfl (fun _ hi => Option.noConfusion hi) rfl⟩

end GqlGen
